import Mathlib

/-
Verification development for the ai-code-reviewer repository.

Shallow embedding conventions:
* JS strings are modelled as `Str := List Char`; `String.prototype.slice`
  is modelled by `jsSlice` with the same negative-index clamping.
* JS numbers occurring in the risk scorer, scanner and formatter are
  modelled as exact rationals (`ℚ`); `Math.round` is `jsRound`
  (round half toward positive infinity), `Math.ceil(n/4)` on natural
  lengths is `(n+3)/4`.
* `Array.prototype.sort` (guaranteed stable since ES2019) is modelled by
  the stable insertion sort `sortDescBy`; a JS `Map` (insertion ordered,
  `set` keeps the position of an existing key) is modelled by an ordered
  association list with in-place update.
* The HMAC-SHA256 hex digest of node:crypto is treated as an oracle
  parameter `hmacHex : Str → Str → Str` (secret, payload ↦ digest);
  `crypto.randomUUID()` is treated as an oracle `ids : ℕ → Str` applied
  to a running counter.
-/

/-- JS strings, at character granularity. -/
abbrev Str := List Char

/-- Shorthand turning a Lean string literal into the `Str` model. -/
def str (s : String) : Str := s.data

/-- JS `String.prototype.slice(start, end)` index clamping. -/
def jsSlice (s : Str) (start endIdx : ℤ) : Str :=
  let len : ℤ := s.length
  let st : ℤ := if start < 0 then max 0 (len + start) else min start len
  let en : ℤ := if endIdx < 0 then max 0 (len + endIdx) else min endIdx len
  if st < en then (s.take en.toNat).drop st.toNat else []

/-- JS `Math.round`: round half toward positive infinity. -/
def jsRound (x : ℚ) : ℤ := ⌊x + 1/2⌋

/-- Decimal rendering of a natural number (JS template-literal interpolation). -/
def natStr (n : ℕ) : Str := (toString n).data

/-- Join string pieces with a separator, as JS `Array.prototype.join`. -/
def joinSep (sep : Str) (pieces : List Str) : Str := List.intercalate sep pieces

/-- Split on a character, as JS `String.prototype.split` with a
one-character separator (keeps empty fragments, `"" ↦ [""]`). -/
def splitOnChar (c : Char) (s : Str) : List Str :=
  s.foldr
    (fun ch acc =>
      match acc with
      | [] => [[ch]]
      | h :: t => if ch = c then [] :: h :: t else (ch :: h) :: t)
    [[]]

/-- Digit-string value, base 10 (the defined fragment of JS `parseInt(_, 10)`). -/
def digitsToNat (s : Str) : ℕ :=
  s.foldl (fun n c => n * 10 + (c.toNat - '0'.toNat)) 0

/-! ## Issue data model (packages/core/src/schemas/issue.ts) -/

/-- Issue category union (`security | correctness | performance |
maintainability | style | dependency`). -/
inductive IssueCategory where
  | security | correctness | performance | maintainability | style | dependency
deriving DecidableEq

/-- Issue severity union (`low | medium | high | critical`). -/
inductive IssueSeverity where
  | low | medium | high | critical
deriving DecidableEq

/-- The string carried by an `IssueCategory` value. -/
def IssueCategory.toStr : IssueCategory → Str
  | .security => str "security"
  | .correctness => str "correctness"
  | .performance => str "performance"
  | .maintainability => str "maintainability"
  | .style => str "style"
  | .dependency => str "dependency"

/-- The string carried by an `IssueSeverity` value. -/
def IssueSeverity.toStr : IssueSeverity → Str
  | .low => str "low"
  | .medium => str "medium"
  | .high => str "high"
  | .critical => str "critical"

/-- Canonical `Issue` record (field names and optionality follow
`IssueSchema`; `confidence` is a JS number modelled as `ℚ`, line numbers
are positive integers modelled as `ℕ`). -/
structure Issue where
  id : Str
  category : IssueCategory
  subtype : Str
  severity : IssueSeverity
  confidence : ℚ
  file_path : Str
  line_start : ℕ
  line_end : ℕ
  message : Str
  evidence : Str
  suggested_fix : Option Str := none
  patch : Option Str := none
  cwe : Option Str := none
  owasp_tag : Option Str := none
  source_tool : Option Str := none
  is_llm_generated : Bool := false
deriving DecidableEq

/-! ## Risk scorer (src/unnamed/part_001, risk-scorer) -/

/-- Risk level union used by `RiskScoreResult`. -/
inductive RiskLevel where
  | low | medium | high | critical
deriving DecidableEq

/-- `SEVERITY_WEIGHTS = { low: 1, medium: 3, high: 7, critical: 15 }`. -/
def SEVERITY_WEIGHTS : IssueSeverity → ℚ
  | .low => 1
  | .medium => 3
  | .high => 7
  | .critical => 15

/-- `CATEGORY_WEIGHTS = { security: 4.0, correctness: 3.0, dependency: 2.5,
performance: 2.0, maintainability: 1.5, style: 1.0 }`. -/
def CATEGORY_WEIGHTS : IssueCategory → ℚ
  | .security => 4
  | .correctness => 3
  | .dependency => 5/2
  | .performance => 2
  | .maintainability => 3/2
  | .style => 1

/-- `RISK_THRESHOLDS = { critical: 85, high: 60, medium: 30, low: 0 }`. -/
def RISK_THRESHOLDS : RiskLevel → ℚ
  | .critical => 85
  | .high => 60
  | .medium => 30
  | .low => 0

/-- `CategoryBreakdown` record of review-output.ts. -/
structure CategoryBreakdown where
  category : IssueCategory
  count : ℕ
  max_severity : IssueSeverity
  score_contribution : ℚ
deriving DecidableEq

/-- `RiskScoreResult` record. -/
structure RiskScoreResult where
  score : ℚ
  level : RiskLevel
  breakdown : List CategoryBreakdown
  rawScore : ℚ
  maxPossibleScore : ℚ
deriving DecidableEq

/-- `ScoreConfig`: `maxExpectedIssues` plus optional per-key weight
overrides (a present key of the `Partial` record overrides the default
under the JS spread `{ ...SEVERITY_WEIGHTS, ...cfg.severityWeights }`). -/
structure ScoreConfig where
  maxExpectedIssues : ℕ
  severityWeights : IssueSeverity → Option ℚ := fun _ => none
  categoryWeights : IssueCategory → Option ℚ := fun _ => none

/-- `DEFAULT_SCORE_CONFIG = { maxExpectedIssues: 20 }`. -/
def DEFAULT_SCORE_CONFIG : ScoreConfig := { maxExpectedIssues := 20 }

/-- Insertion-ordered grouping used by `calculateRiskScore`
(`categoryGroups` is a JS `Map`; `get ?? []` + `push` + `set` appends to
the entry of an existing key in place, or appends a new entry). -/
def insertGroup : List (IssueCategory × List Issue) → Issue →
    List (IssueCategory × List Issue)
  | [], i => [(i.category, [i])]
  | (c, g) :: t, i =>
    if i.category = c then (c, g ++ [i]) :: t else (c, g) :: insertGroup t i

/-- Group issues by category, preserving first-seen key order. -/
def groupByCategory (issues : List Issue) : List (IssueCategory × List Issue) :=
  issues.foldl insertGroup []

/-- Running maximum severity of a group, tracked with the fixed
`SEVERITY_WEIGHTS` comparison and initial value `'low'`. -/
def maxSeverityOf (g : List Issue) : IssueSeverity :=
  g.foldl
    (fun m i =>
      if SEVERITY_WEIGHTS m < SEVERITY_WEIGHTS i.severity then i.severity else m)
    .low

/-- Stable insertion preserving existing order among equal keys
(descending by `key`). -/
def insertDescBy {α : Type} (key : α → ℚ) (x : α) : List α → List α
  | [] => [x]
  | y :: ys => if key x < key y then y :: insertDescBy key x ys else x :: y :: ys

/-- Stable descending sort by a rational key: the model of the JS stable
`Array.prototype.sort` with comparator `(a, b) => key(b) - key(a)`. -/
def sortDescBy {α : Type} (key : α → ℚ) (l : List α) : List α :=
  l.foldr (insertDescBy key) []

/-- Per-category raw contribution sum
`Σ severityWeight × confidence × categoryWeight` with merged weights. -/
def categoryScoreOf (sevW : IssueSeverity → ℚ) (catW : IssueCategory → ℚ)
    (cat : IssueCategory) (g : List Issue) : ℚ :=
  (g.map (fun i => sevW i.severity * i.confidence * catW cat)).sum

/-- `calculateRiskScore` of the risk scorer. -/
def calculateRiskScore (issues : List Issue)
    (config : ScoreConfig := DEFAULT_SCORE_CONFIG) : RiskScoreResult :=
  let sevW := fun s => (config.severityWeights s).getD (SEVERITY_WEIGHTS s)
  let catW := fun c => (config.categoryWeights c).getD (CATEGORY_WEIGHTS c)
  let groups := groupByCategory issues
  let breakdownUnsorted := groups.map (fun e =>
    { category := e.1
      count := e.2.length
      max_severity := maxSeverityOf e.2
      score_contribution :=
        (jsRound (categoryScoreOf sevW catW e.1 e.2 * 10) : ℚ) / 10
      : CategoryBreakdown })
  let totalRawScore := (groups.map (fun e => categoryScoreOf sevW catW e.1 e.2)).sum
  let breakdown := sortDescBy (fun b => b.score_contribution) breakdownUnsorted
  let maxPossibleScore : ℚ :=
    (config.maxExpectedIssues : ℚ) * SEVERITY_WEIGHTS .critical *
      CATEGORY_WEIGHTS .security
  let normalizedScore : ℚ := min 100 (totalRawScore / maxPossibleScore * 100)
  let finalScore : ℚ := (jsRound (min 100 (normalizedScore * (11/10))) : ℚ)
  let level : RiskLevel :=
    if RISK_THRESHOLDS .critical ≤ finalScore then .critical
    else if RISK_THRESHOLDS .high ≤ finalScore then .high
    else if RISK_THRESHOLDS .medium ≤ finalScore then .medium
    else .low
  { score := min 100 finalScore
    level := level
    breakdown := breakdown
    rawScore := totalRawScore
    maxPossibleScore := maxPossibleScore }

/-- `shouldFailCheck` of the risk scorer (defaults:
`threshold = RISK_THRESHOLDS.critical`, `failOnCriticalSecurity = true`). -/
def shouldFailCheck (result : RiskScoreResult)
    (threshold : ℚ := RISK_THRESHOLDS .critical)
    (failOnCriticalSecurity : Bool := true) : Bool :=
  if threshold ≤ result.score then true
  else if failOnCriticalSecurity then
    match result.breakdown.find? (fun b => b.category == .security) with
    | some b => b.max_severity == .critical
    | none => false
  else false

/-- Per-issue priority score `getIssueScore` (fixed weights). -/
def getIssueScore (issue : Issue) : ℚ :=
  SEVERITY_WEIGHTS issue.severity * issue.confidence * CATEGORY_WEIGHTS issue.category

/-- `sortIssuesByPriority` (stable sort of a copy, highest score first). -/
def sortIssuesByPriority (issues : List Issue) : List Issue :=
  sortDescBy getIssueScore issues

/-! ## Issue aggregator (src/unnamed/part_008) -/

/-- Worker configuration fields consumed by `aggregateIssues`
(the remaining `WorkerConfig` fields are irrelevant to it). -/
structure AggConfig where
  confidenceThreshold : ℚ
  maxInlineComments : ℕ

/-- `createDedupeKey`:
`file_path:line_start-line_end:category:subtype.slice(0, 20)`. -/
def createDedupeKey (issue : Issue) : Str :=
  issue.file_path ++ str ":" ++ natStr issue.line_start ++ str "-" ++
    natStr issue.line_end ++ str ":" ++ issue.category.toStr ++ str ":" ++
    jsSlice issue.subtype 0 20

/-- `severityOrder = { critical: 4, high: 3, medium: 2, low: 1 }` used by
`shouldReplace`. -/
def severityOrder : IssueSeverity → ℕ
  | .critical => 4
  | .high => 3
  | .medium => 2
  | .low => 1

/-- `shouldReplace`: prefer strictly higher severity, then strictly higher
confidence. -/
def shouldReplace (existing newIssue : Issue) : Bool :=
  if severityOrder existing.severity < severityOrder newIssue.severity then true
  else if severityOrder newIssue.severity < severityOrder existing.severity then false
  else decide (existing.confidence < newIssue.confidence)

/-- One step of `deduplicateIssues`: `seen.get(key)` / `seen.set(key, …)`
on the insertion-ordered JS `Map` (updating an existing key keeps its
position, a new key is appended). -/
def dedupInsert : List (Str × Issue) → Issue → List (Str × Issue)
  | [], i => [(createDedupeKey i, i)]
  | (k, e) :: t, i =>
    if createDedupeKey i = k then
      (if shouldReplace e i then (k, i) else (k, e)) :: t
    else
      (k, e) :: dedupInsert t i

/-- `deduplicateIssues`: fold issues through the map, then
`Array.from(seen.values())` in key-insertion order. -/
def deduplicateIssues (issues : List Issue) : List Issue :=
  (issues.foldl dedupInsert []).map (·.2)

/-- `AggregationResult` record. -/
structure AggregationResult where
  inlineComments : List Issue
  allIssues : List Issue
  riskScore : RiskScoreResult
  totalFound : ℕ
  afterDedup : ℕ
  afterFiltering : ℕ
  selected : ℕ
deriving DecidableEq

/-- `aggregateIssues`: deduplicate, confidence-filter, priority-sort,
cap to `maxInlineComments`, and score the full filtered set. -/
def aggregateIssues (issues : List Issue) (config : AggConfig) :
    AggregationResult :=
  let totalFound := issues.length
  let deduplicated := deduplicateIssues issues
  let afterDedup := deduplicated.length
  let filtered := deduplicated.filter
    (fun issue => decide (config.confidenceThreshold ≤ issue.confidence))
  let afterFiltering := filtered.length
  let sorted := sortIssuesByPriority filtered
  let selected := sorted.take config.maxInlineComments
  let riskScore := calculateRiskScore filtered
  { inlineComments := selected
    allIssues := filtered
    riskScore := riskScore
    totalFound := totalFound
    afterDedup := afterDedup
    afterFiltering := afterFiltering
    selected := selected.length }

/-! ## Comment formatter (src/unnamed/part_003) -/

/-- `CommentFormatConfig` (`formatInlineComment` receives the result of
`{ ...DEFAULT_COMMENT_CONFIG, ...config }`; we pass the merged record). -/
structure CommentFormatConfig where
  maxInlineChars : ℤ
  maxSummaryChars : ℤ
  includeEvidence : Bool
  includeFixes : Bool

/-- `DEFAULT_COMMENT_CONFIG`. -/
def DEFAULT_COMMENT_CONFIG : CommentFormatConfig :=
  { maxInlineChars := 900
    maxSummaryChars := 4000
    includeEvidence := true
    includeFixes := true }

/-- `SEVERITY_BADGES` emoji map. -/
def SEVERITY_BADGES : IssueSeverity → Str
  | .critical => str "🔴"
  | .high => str "🟠"
  | .medium => str "🟡"
  | .low => str "🟢"

/-- `CATEGORY_BADGES` emoji map. -/
def CATEGORY_BADGES : IssueCategory → Str
  | .security => str "🔒"
  | .correctness => str "🐛"
  | .performance => str "⚡"
  | .maintainability => str "🔧"
  | .style => str "✨"
  | .dependency => str "📦"

/-- `issue.severity.toUpperCase()` on the four severity literals. -/
def IssueSeverity.toUpperStr : IssueSeverity → Str
  | .low => str "LOW"
  | .medium => str "MEDIUM"
  | .high => str "HIGH"
  | .critical => str "CRITICAL"

/-- `truncateText(text, maxLength, indicator = '...')`. -/
def truncateText (text : Str) (maxLength : ℤ) (indicator : Str := str "...") :
    Str :=
  if (text.length : ℤ) ≤ maxLength then text
  else jsSlice text 0 (maxLength - indicator.length) ++ indicator

/-- `formatInlineComment(issue, config)`: header with badges, message,
optional evidence block, optional suggested fix, optional CWE/OWASP tags,
joined with newlines and truncated to `maxInlineChars`. -/
def formatInlineComment (issue : Issue) (cfg : CommentFormatConfig) : Str :=
  let header :=
    SEVERITY_BADGES issue.severity ++ str " **" ++ issue.severity.toUpperStr ++
      str "** " ++ CATEGORY_BADGES issue.category ++ str " " ++
      issue.category.toStr ++ str "/" ++ issue.subtype
  let parts := [header, str "", issue.message]
  let parts :=
    if cfg.includeEvidence ∧ issue.evidence.length > 0 then
      parts ++ [str "", str "**Evidence:**", str "```",
        truncateText issue.evidence 200, str "```"]
    else parts
  let parts :=
    match cfg.includeFixes, issue.suggested_fix with
    | true, some fix =>
      if fix.length > 0 then
        parts ++ [str "", str "💡 **Suggested fix:** " ++ fix]
      else parts
    | _, _ => parts
  let tags : List Str :=
    (match issue.cwe with | some c => [c] | none => []) ++
      (match issue.owasp_tag with | some o => [str "OWASP: " ++ o] | none => [])
  let parts :=
    if tags.length > 0 then
      parts ++ [str "", str "🏷️ " ++ joinSep (str " | ") tags]
    else parts
  truncateText (joinSep (str "\n") parts) cfg.maxInlineChars

/-! ## OSV vulnerability scanner (src/unnamed/part_006, osv-scanner) -/

/-- One entry of the OSV `severity` array (`{ type, score }`). -/
structure OsvSeverityEntry where
  type : Str
  score : Str
deriving DecidableEq

/-- `OsvVulnerability` fields consumed by `scanDependencies` /
`mapOsvSeverity` (the unused `affected` / `references` fields are
elided). -/
structure OsvVulnerability where
  id : Str
  summary : Str
  details : Str
  severity : Option (List OsvSeverityEntry) := none
deriving DecidableEq

/-- Package ecosystem union. -/
inductive Ecosystem where
  | npm | pypi | go
deriving DecidableEq

/-- `PackageDependency` record (`{ name, version, ecosystem }`). -/
structure PackageDependency where
  name : Str
  version : Str
  ecosystem : Ecosystem
deriving DecidableEq

/-- Character class of JS regex `.` (anything but a line terminator). -/
def isDotChar (c : Char) : Bool :=
  c ≠ '\n' && c ≠ '\r' && c ≠ ' ' && c ≠ ' '

/-- ASCII decimal digit (JS regex `\d`). -/
def isDigitChar (c : Char) : Bool := '0' ≤ c && c ≤ '9'

/-- Optional sign plus digits after `e`/`E` in a JS numeral; a digitless
exponent part is ignored (as `parseFloat("1e") = 1`). -/
def parseExponent (t : Str) : ℤ :=
  let se : ℤ × Str :=
    match t with
    | '-' :: u => (-1, u)
    | '+' :: u => (1, u)
    | _ => (1, t)
  let ds := se.2.takeWhile isDigitChar
  if ds = [] then 0 else se.1 * (digitsToNat ds : ℤ)

/-- JS `parseFloat`, restricted to finite decimal numerals: skip leading
whitespace, optional sign, integer digits, optional fraction, optional
exponent; `none` models `NaN` (every `>=` comparison against it is
false). The `Infinity` literal is not modelled. -/
def parseFloat (s : Str) : Option ℚ :=
  let s := s.dropWhile (fun c => c.isWhitespace)
  let sgn : ℚ × Str :=
    match s with
    | '-' :: t => (-1, t)
    | '+' :: t => (1, t)
    | _ => (1, s)
  let ip := sgn.2.takeWhile isDigitChar
  let s1 := sgn.2.dropWhile isDigitChar
  let fpOpt : Str × Str :=
    match s1 with
    | '.' :: t => (t.takeWhile isDigitChar, t.dropWhile isDigitChar)
    | _ => ([], s1)
  let fp := fpOpt.1
  if ip = [] ∧ fp = [] then none
  else
    let mant : ℚ := (digitsToNat ip : ℚ) + (digitsToNat fp : ℚ) / (10 ^ fp.length)
    let expo : ℤ :=
      match fpOpt.2 with
      | 'e' :: t => parseExponent t
      | 'E' :: t => parseExponent t
      | _ => 0
    some (sgn.1 * mant * (10 : ℚ) ^ expo)

/-- `mapOsvSeverity`: severity from the first CVSS-like score
(`undefined` entry → medium; then ≥9 critical, ≥7 high, ≥4 medium, else
low, with an unparseable score behaving as NaN → low). -/
def mapOsvSeverity (vuln : OsvVulnerability) : IssueSeverity :=
  match vuln.severity.bind List.head? with
  | none => .medium
  | some entry =>
    match parseFloat entry.score with
    | none => .low
    | some score =>
      if 9 ≤ score then .critical
      else if 7 ≤ score then .high
      else if 4 ≤ score then .medium
      else .low

/-- The issue pushed by `scanDependencies` for one vulnerability of one
dependency (`id` comes from the `crypto.randomUUID()` oracle). -/
def osvIssue (id : Str) (dep : PackageDependency) (vuln : OsvVulnerability)
    (lockfilePath : Str) : Issue :=
  { id := id
    category := .dependency
    subtype := str "cve"
    severity := mapOsvSeverity vuln
    confidence := 95/100
    file_path := lockfilePath
    line_start := 1
    line_end := 1
    message := str "**" ++ vuln.id ++ str "**: " ++ vuln.summary ++ str " (" ++
      dep.name ++ str "@" ++ dep.version ++ str ")"
    evidence := jsSlice vuln.details 0 200
    source_tool := some (str "osv")
    is_llm_generated := false }

/-- `scanDependencies`, from the point where the dependency list has been
parsed out of the lockfile: query the vulnerability service (oracle
`vulnsOf`) for the first 50 dependencies and map every returned
vulnerability to one issue. The `ids` oracle stands for
`crypto.randomUUID()`, applied at the running issue count. -/
def scanDependencies (enableOsvScan : Bool) (deps : List PackageDependency)
    (vulnsOf : PackageDependency → List OsvVulnerability)
    (lockfilePath : Str) (ids : ℕ → Str) : List Issue :=
  if enableOsvScan then
    (deps.take 50).foldl
      (fun acc dep =>
        (vulnsOf dep).foldl
          (fun acc2 vuln => acc2 ++ [osvIssue (ids acc2.length) dep vuln lockfilePath])
          acc)
      []
  else []

/-! ## Webhook signature verification (src/unnamed/part_006, signature middleware) -/

/-- `verifySignature(payload, signature, secret)`:
`timingSafeEqual(Buffer.from(signature), Buffer.from(expected))`, with the
length-mismatch exception caught and turned into `false`. `hmacHex` is the
HMAC-SHA256 lowercase-hex oracle; buffers are compared at character
granularity (equality and length agreement coincide with the byte-level
outcome because UTF-8 encoding is injective). -/
def verifySignature (hmacHex : Str → Str → Str)
    (payload signature secret : Str) : Bool :=
  let expectedSignature := str "sha256=" ++ hmacHex secret payload
  let timingSafeEqual : Except Unit Bool :=
    if signature.length ≠ expectedSignature.length then .error ()
    else .ok (signature == expectedSignature)
  match timingSafeEqual with
  | .ok b => b
  | .error _ => false

/-- An HTTP header value as express exposes it (`string | string[]`). -/
inductive HeaderValue where
  | hstr (s : Str)
  | harr (l : List Str)
deriving DecidableEq

/-- The request fields read by the signature middleware. -/
structure MwRequest where
  signatureHeader : Option HeaderValue
  rawBody : Option Str

/-- Outcome of an express middleware: either an HTTP response with the
given status, or a call of the downstream handler. -/
inductive MwOutcome where
  | respond (status : ℕ)
  | next
deriving DecidableEq

/-- `signatureMiddleware(webhookSecret)`: 401 on a missing or non-string
`X-Hub-Signature-256` header, 500 on a missing raw body, 401 on signature
mismatch, `next()` on success. -/
def signatureMiddleware (hmacHex : Str → Str → Str) (webhookSecret : Str)
    (req : MwRequest) : MwOutcome :=
  match req.signatureHeader with
  | none => .respond 401
  | some (.harr _) => .respond 401
  | some (.hstr signature) =>
    match req.rawBody with
    | none => .respond 500
    | some rawBody =>
      if verifySignature hmacHex rawBody signature webhookSecret then .next
      else .respond 401

/-! ## Diff model (packages/core/src/diff-parser.ts, data types) -/

/-- File change kind union. -/
inductive FileChangeType where
  | add | delete | modify | rename
deriving DecidableEq

/-- `DiffHunk` record; `addedLines` / `removedLines` hold
`{ lineNumber, content }` pairs. -/
structure DiffHunk where
  oldStart : ℕ
  oldCount : ℕ
  newStart : ℕ
  newCount : ℕ
  content : Str
  addedLines : List (ℕ × Str)
  removedLines : List (ℕ × Str)
deriving DecidableEq

/-- `DiffFile` record. -/
structure DiffFile where
  oldPath : Option Str
  newPath : Option Str
  type : FileChangeType
  isBinary : Bool
  modeChange : Option (Str × Str) := none
  similarity : Option ℕ := none
  hunks : List DiffHunk
  linesAdded : ℕ
  linesRemoved : ℕ
deriving DecidableEq

/-- `ParsedDiff` record. -/
structure ParsedDiff where
  files : List DiffFile
  totalLinesAdded : ℕ
  totalLinesRemoved : ℕ
  totalFilesChanged : ℕ
deriving DecidableEq

/-- `getFilePath`: `newPath ?? oldPath ?? ''`. -/
def getFilePath (file : DiffFile) : Str :=
  (file.newPath.or file.oldPath).getD []

/-! ## Chunker (packages/core/src/file-filters.ts, chunker part) -/

/-- `ChunkConfig` record. -/
structure ChunkConfig where
  maxTokens : ℕ
  overlapTokens : ℕ
  maxFilesPerChunk : ℕ
  keepFilesTogether : Bool
deriving DecidableEq

/-- `DEFAULT_CHUNK_CONFIG`. -/
def DEFAULT_CHUNK_CONFIG : ChunkConfig :=
  { maxTokens := 4000
    overlapTokens := 200
    maxFilesPerChunk := 5
    keepFilesTogether := true }

/-- `DiffChunk` record. -/
structure DiffChunk where
  index : ℕ
  totalChunks : ℕ
  files : List DiffFile
  filePaths : List Str
  content : Str
  estimatedTokens : ℕ
  languages : List Str
deriving DecidableEq

/-- `estimateTokens`: `Math.ceil(text.length / 4)`. -/
def estimateTokens (text : Str) : ℕ := (text.length + 3) / 4

/-- The string form of a `FileChangeType` (template-literal interpolation). -/
def FileChangeType.toStr : FileChangeType → Str
  | .add => str "add"
  | .delete => str "delete"
  | .modify => str "modify"
  | .rename => str "rename"

/-- `formatDiffFileForLLM`. -/
def formatDiffFileForLLM (file : DiffFile) : Str :=
  let path := getFilePath file
  let header := [str "## File: " ++ path,
    str "Type: " ++ file.type.toStr ++ str " | +" ++ natStr file.linesAdded ++
      str " -" ++ natStr file.linesRemoved]
  if file.isBinary then
    joinSep (str "\n") (header ++ [str "(Binary file)"])
  else
    let header :=
      match file.type, file.similarity with
      | .rename, some sim =>
        header ++ [str "Renamed from: " ++ (file.oldPath.getD (str "unknown")) ++
          str " (" ++ natStr sim ++ str "% similar)"]
      | _, _ => header
    joinSep (str "\n")
      (header ++ [str "```diff"] ++ file.hunks.map (·.content) ++ [str "```"])

/-- `detectLanguage` of the chunker. -/
def detectLanguage (filePath : Str) : Option Str :=
  let ext := ((splitOnChar '.' filePath).getLast?.getD []).map Char.toLower
  if ext == str "ts" then some (str "typescript")
  else if ext == str "tsx" then some (str "typescript")
  else if ext == str "js" then some (str "javascript")
  else if ext == str "jsx" then some (str "javascript")
  else if ext == str "py" then some (str "python")
  else if ext == str "go" then some (str "go")
  else if ext == str "rs" then some (str "rust")
  else if ext == str "java" then some (str "java")
  else if ext == str "rb" then some (str "ruby")
  else if ext == str "php" then some (str "php")
  else if ext == str "cs" then some (str "csharp")
  else if ext == str "cpp" then some (str "cpp")
  else if ext == str "c" then some (str "c")
  else if ext == str "swift" then some (str "swift")
  else if ext == str "kt" then some (str "kotlin")
  else none

/-- Keep first occurrences, as JS `Set` insertion followed by
`Array.from`. -/
def dedupKeepFirst (l : List Str) : List Str :=
  l.foldl (fun acc x => if acc.contains x then acc else acc ++ [x]) []

/-- Mutable state of the `chunkDiff` loop. -/
structure ChunkState where
  chunks : List DiffChunk
  currentFiles : List DiffFile
  currentContent : List Str
  currentTokens : ℕ

/-- The `createChunk` closure of `chunkDiff`: flush the current batch
(no-op on an empty batch); `totalChunks` is filled in later. -/
def createChunk (st : ChunkState) : ChunkState :=
  if st.currentFiles = [] then st
  else
    let content := joinSep (str "\n\n") st.currentContent
    let languages :=
      dedupKeepFirst (st.currentFiles.filterMap (fun f => detectLanguage (getFilePath f)))
    { chunks := st.chunks ++ [{
        index := st.chunks.length
        totalChunks := 0
        files := st.currentFiles
        filePaths := st.currentFiles.map getFilePath
        content := content
        estimatedTokens := estimateTokens content
        languages := languages }]
      currentFiles := []
      currentContent := []
      currentTokens := 0 }

/-- One iteration of the `chunkDiff` file loop. -/
def chunkStep (cfg : ChunkConfig) (st : ChunkState) (file : DiffFile) :
    ChunkState :=
  let fileContent := formatDiffFileForLLM file
  let fileTokens := estimateTokens fileContent
  let st :=
    if cfg.maxTokens < fileTokens ∧ st.currentFiles ≠ [] then createChunk st
    else st
  let wouldExceedTokens := cfg.maxTokens < st.currentTokens + fileTokens
  let wouldExceedFiles := cfg.maxFilesPerChunk ≤ st.currentFiles.length
  let st := if wouldExceedTokens ∨ wouldExceedFiles then createChunk st else st
  { st with
    currentFiles := st.currentFiles ++ [file]
    currentContent := st.currentContent ++ [fileContent]
    currentTokens := st.currentTokens + fileTokens }

/-- `chunkDiff(diff, config)` (we pass the merged configuration). -/
def chunkDiff (diff : ParsedDiff) (cfg : ChunkConfig := DEFAULT_CHUNK_CONFIG) :
    List DiffChunk :=
  if diff.files = [] then []
  else
    let st := diff.files.foldl (chunkStep cfg) ⟨[], [], [], 0⟩
    let st := createChunk st
    st.chunks.map (fun c => { c with totalChunks := st.chunks.length })

/-! ## Diff parser (packages/core/src/diff-parser.ts, parseDiff)

Each line-shape regex of the source is embedded as a matcher returning
its capture groups; `.` is `isDotChar`, `\d` is `isDigitChar`, and the
greedy backtracking of the JS engine is resolved explicitly where it
matters (last `" b/"` split in the `diff --git` header, maximal-munch
digit runs in the hunk header). -/

/-- Drop a literal prefix, or fail. -/
def dropLit (p s : Str) : Option Str :=
  if s.take p.length = p then some (s.drop p.length) else none

/-- All characters match JS regex `.`. -/
def allDot (s : Str) : Bool := s.all isDotChar

/-- `/^diff --git a\/(.+) b\/(.+)$/`: greedy first group, i.e. the split
happens at the last `" b/"` occurrence with a non-empty group on each
side. -/
def matchDiffHeader (line : Str) : Option (Str × Str) :=
  match dropLit (str "diff --git a/") line with
  | none => none
  | some r =>
    if allDot r then
      let idxs := (List.range r.length).filter
        (fun i => decide (1 ≤ i) && ((r.drop i).take 3 == str " b/") &&
          decide (i + 3 < r.length))
      match idxs.getLast? with
      | some i => some (r.take i, r.drop (i + 3))
      | none => none
    else none

/-- `/^<prefix>(.+)$/` for a literal prefix. -/
def matchPrefixRest (p : Str) (line : Str) : Option Str :=
  match dropLit p line with
  | none => none
  | some r => if r ≠ [] && allDot r then some r else none

/-- `/^<prefix>(\d+)$/` for a literal prefix. -/
def matchPrefixDigits (p : Str) (line : Str) : Option ℕ :=
  match dropLit p line with
  | none => none
  | some r => if r ≠ [] && r.all isDigitChar then some (digitsToNat r) else none

/-- `/^similarity index (\d+)%$/`. -/
def matchSimilarity (line : Str) : Option ℕ :=
  match dropLit (str "similarity index ") line with
  | none => none
  | some r =>
    let ds := r.dropLast
    if r.getLast? = some '%' && ds ≠ [] && ds.all isDigitChar then
      some (digitsToNat ds)
    else none

/-- `/^Binary files .+ differ$/`. -/
def matchBinary (line : Str) : Bool :=
  (dropLit (str "Binary files ") line).elim false (fun r =>
    (str " differ").length < r.length &&
      r.drop (r.length - (str " differ").length) == str " differ" &&
      allDot r)

/-- `/^--- (?:a\/)?(.+)$/` (on backtracking, `a/` alone is the group). -/
def matchOldFile (line : Str) : Option Str :=
  match dropLit (str "--- ") line with
  | none => none
  | some r =>
    if r ≠ [] && allDot r then
      if r.take 2 = str "a/" ∧ 2 < r.length then some (r.drop 2) else some r
    else none

/-- `/^\+\+\+ (?:b\/)?(.+)$/`. -/
def matchNewFile (line : Str) : Option Str :=
  match dropLit (str "+++ ") line with
  | none => none
  | some r =>
    if r ≠ [] && allDot r then
      if r.take 2 = str "b/" ∧ 2 < r.length then some (r.drop 2) else some r
    else none

/-- A maximal non-empty digit run and the remainder. -/
def takeDigits1 (s : Str) : Option (ℕ × Str) :=
  let ds := s.takeWhile isDigitChar
  if ds = [] then none else some (digitsToNat ds, s.dropWhile isDigitChar)

/-- An optional `,(\d+)` group. -/
def takeCommaDigits (s : Str) : Option ℕ × Str :=
  match s with
  | ',' :: t =>
    match takeDigits1 t with
    | some (n, rest) => (some n, rest)
    | none => (none, s)
  | _ => (none, s)

/-- `/^@@ -(\d+)(?:,(\d+))? \+(\d+)(?:,(\d+))? @@/` (unanchored at the
end: anything may follow the closing `@@`). -/
def matchHunkHeader (line : Str) : Option (ℕ × Option ℕ × ℕ × Option ℕ) :=
  match dropLit (str "@@ -") line with
  | none => none
  | some r =>
    match takeDigits1 r with
    | none => none
    | some (d1, r) =>
      let cd := takeCommaDigits r
      match dropLit (str " +") cd.2 with
      | none => none
      | some r =>
        match takeDigits1 r with
        | none => none
        | some (d3, r) =>
          let cd2 := takeCommaDigits r
          match dropLit (str " @@") cd2.2 with
          | none => none
          | some _ => some (d1, cd.1, d3, cd2.1)

/-- Mutable state of the `parseDiff` loop. -/
structure ParseState where
  files : List DiffFile
  currentFile : Option DiffFile
  currentHunk : Option DiffHunk
  oldLineNum : ℕ
  newLineNum : ℕ
  hunkContent : List Str

/-- The `finalizeHunk` closure: attach the pending hunk (with its joined
content) to the current file when both exist; always reset the hunk. -/
def finalizeHunk (s : ParseState) : ParseState :=
  match s.currentHunk, s.currentFile with
  | some h, some f =>
    { s with
      currentFile := some { f with hunks :=
        f.hunks ++ [{ h with content := joinSep (str "\n") s.hunkContent }] }
      currentHunk := none
      hunkContent := [] }
  | _, _ => { s with currentHunk := none, hunkContent := [] }

/-- The `finalizeFile` closure. -/
def finalizeFile (s : ParseState) : ParseState :=
  let s := finalizeHunk s
  match s.currentFile with
  | some f => { s with files := s.files ++ [f], currentFile := none }
  | none => s

/-- Hunk-content handling for one line (the tail of the loop body). -/
def parseHunkLine (s : ParseState) (cf : DiffFile) (h : DiffHunk)
    (line : Str) : ParseState :=
  let s := { s with hunkContent := s.hunkContent ++ [line] }
  if line.take 1 = str "+" ∧ ¬line.take 3 = str "+++" then
    { s with
      currentHunk := some { h with addedLines := h.addedLines ++ [(s.newLineNum, line.drop 1)] }
      currentFile := some { cf with linesAdded := cf.linesAdded + 1 }
      newLineNum := s.newLineNum + 1 }
  else if line.take 1 = str "-" ∧ ¬line.take 3 = str "---" then
    { s with
      currentHunk := some { h with removedLines := h.removedLines ++ [(s.oldLineNum, line.drop 1)] }
      currentFile := some { cf with linesRemoved := cf.linesRemoved + 1 }
      oldLineNum := s.oldLineNum + 1 }
  else if line.take 1 = str " " ∨ line = [] then
    { s with oldLineNum := s.oldLineNum + 1, newLineNum := s.newLineNum + 1 }
  else s

/-- One iteration of the `parseDiff` line loop, with the source's matcher
order. -/
def parseDiffLine (s : ParseState) (line : Str) : ParseState :=
  match matchDiffHeader line with
  | some (g1, g2) =>
    let s := finalizeFile s
    { s with currentFile := some {
        oldPath := some g1
        newPath := some g2
        type := .modify
        isBinary := false
        hunks := []
        linesAdded := 0
        linesRemoved := 0 } }
  | none =>
    match s.currentFile with
    | none => s
    | some cf =>
      match matchPrefixRest (str "rename from ") line with
      | some g => { s with currentFile := some { cf with oldPath := some g, type := .rename } }
      | none =>
      match matchPrefixRest (str "rename to ") line with
      | some g => { s with currentFile := some { cf with newPath := some g, type := .rename } }
      | none =>
      match matchSimilarity line with
      | some n => { s with currentFile := some { cf with similarity := some n } }
      | none =>
      if matchBinary line then
        { s with currentFile := some { cf with isBinary := true } }
      else
      match matchPrefixDigits (str "old mode ") line with
      | some m => { s with currentFile := some { cf with modeChange := some (natStr m, []) } }
      | none =>
      match matchPrefixDigits (str "new mode ") line with
      | some m =>
        match cf.modeChange with
        | some mc => { s with currentFile := some { cf with modeChange := some (mc.1, natStr m) } }
        | none => s
      | none =>
      match matchPrefixDigits (str "new file mode ") line with
      | some _ => { s with currentFile := some { cf with type := .add, oldPath := none } }
      | none =>
      match matchPrefixDigits (str "deleted file mode ") line with
      | some _ => { s with currentFile := some { cf with type := .delete, newPath := none } }
      | none =>
      match matchOldFile line with
      | some p =>
        if p = str "/dev/null" then
          { s with currentFile := some { cf with oldPath := none, type := .add } }
        else
          { s with currentFile := some { cf with oldPath := some p } }
      | none =>
      match matchNewFile line with
      | some p =>
        if p = str "/dev/null" then
          { s with currentFile := some { cf with newPath := none, type := .delete } }
        else
          { s with currentFile := some { cf with newPath := some p } }
      | none =>
      match matchHunkHeader line with
      | some (d1, d2, d3, d4) =>
        let s := finalizeHunk s
        { s with
          oldLineNum := d1
          newLineNum := d3
          currentHunk := some {
            oldStart := d1
            oldCount := d2.getD 1
            newStart := d3
            newCount := d4.getD 1
            content := []
            addedLines := []
            removedLines := [] }
          hunkContent := [line] }
      | none =>
        match s.currentHunk, s.currentFile with
        | some h, some cf => parseHunkLine s cf h line
        | _, _ => s

/-- Initial parse state. -/
def initParseState : ParseState := ⟨[], none, none, 0, 0, []⟩

/-- `parseDiff(diffContent)`. -/
def parseDiff (diffContent : Str) : ParsedDiff :=
  let lines := splitOnChar '\n' diffContent
  let s := finalizeFile (lines.foldl parseDiffLine initParseState)
  { files := s.files
    totalLinesAdded := (s.files.map (·.linesAdded)).sum
    totalLinesRemoved := (s.files.map (·.linesRemoved)).sum
    totalFilesChanged := s.files.length }

/-! ## Helper lemmas -/

/-- A `slice(0, e)` with non-negative `e` returns at most `e` characters. -/
theorem length_jsSlice_zero (s : Str) (e : ℤ) (he : 0 ≤ e) :
    ((jsSlice s 0 e).length : ℤ) ≤ e := by
  unfold jsSlice
  have h0 : ¬ ((0 : ℤ) < 0) := by norm_num
  have hlen : (0 : ℤ) ≤ (s.length : ℤ) := by positivity
  have hmin : min (0 : ℤ) (s.length : ℤ) = 0 := min_eq_left hlen
  simp only [h0, if_false, hmin]
  split_ifs with hneg hlt
  · omega
  · have : ((s.take (max 0 ((s.length : ℤ) + e)).toNat).drop (0 : ℤ).toNat).length
        = min (max 0 ((s.length : ℤ) + e)).toNat s.length := by
      simp [List.length_take]
    omega
  · simp only [List.length_drop, List.length_take]
    have : (min e (s.length : ℤ)).toNat ≤ e.toNat := by omega
    omega
  · simp
    omega

/-- `truncateText` with the default indicator never exceeds the limit,
provided the limit is at least the indicator length. -/
theorem truncateText_length_le (t : Str) (m : ℤ) (hm : 3 ≤ m) :
    ((truncateText t m).length : ℤ) ≤ m := by
  unfold truncateText
  split_ifs with h
  · exact h
  · have hind : ((str "...").length : ℤ) = 3 := by rfl
    have hs := length_jsSlice_zero t (m - ((str "...").length : ℤ)) (by omega)
    simp only [List.length_append]
    push_cast at hs ⊢
    omega

/-- Claim C10: for every issue and any comment configuration with
`maxInlineChars ≥ 3` (default 900), `formatInlineComment` returns a string
of length at most `maxInlineChars` — the assembled comment is truncated
with the `'...'` indicator. -/
theorem formatInlineComment_length_le (issue : Issue) (cfg : CommentFormatConfig)
    (h : 3 ≤ cfg.maxInlineChars) :
    ((formatInlineComment issue cfg).length : ℤ) ≤ cfg.maxInlineChars ∧
      DEFAULT_COMMENT_CONFIG.maxInlineChars = 900 := by
  refine ⟨?_, rfl⟩
  unfold formatInlineComment
  exact truncateText_length_le _ _ h

/-- Witness for C10 at a concrete issue and the default configuration. -/
theorem formatInlineComment_length_le_witness :
    (3 ≤ DEFAULT_COMMENT_CONFIG.maxInlineChars) ∧
      ((formatInlineComment
          { id := str "1"
            category := .security
            subtype := str "sql-injection"
            severity := .high
            confidence := 9/10
            file_path := str "src/db.ts"
            line_start := 3
            line_end := 4
            message := str "SQL injection risk"
            evidence := str "query(userInput)"
            suggested_fix := some (str "use parameters")
            cwe := some (str "CWE-89")
            owasp_tag := some (str "A03") }
          DEFAULT_COMMENT_CONFIG).length : ℤ) ≤
        DEFAULT_COMMENT_CONFIG.maxInlineChars :=
  ⟨by decide, (formatInlineComment_length_le _ _ (by decide)).1⟩

/-! ## Claim C1: webhook signature verification -/

/-- `verifySignature` is observational string equality with the expected
`sha256=<digest>` value: the length-mismatch exception of
`timingSafeEqual` is caught and becomes `false`. -/
theorem verifySignature_eq_beq (hmacHex : Str → Str → Str)
    (payload signature secret : Str) :
    verifySignature hmacHex payload signature secret =
      (signature == str "sha256=" ++ hmacHex secret payload) := by
  unfold verifySignature
  by_cases h : signature.length = (str "sha256=" ++ hmacHex secret payload).length
  · simp [h]
  · have hne : signature ≠ str "sha256=" ++ hmacHex secret payload := by
      intro he; exact h (by rw [he])
    have h2 : ¬ (signature.length =
        (str "sha256=").length + (hmacHex secret payload).length) := by
      simpa [List.length_append] using h
    simp [h, hne, h2]

/-- Claim C1: `verifySignature` returns true iff the signature header
equals `sha256=` followed by the HMAC-SHA256 hex digest of the body under
the secret (any other value, including one of different length, yields
`false` without raising); the middleware responds 401 and skips the
downstream handler on mismatch, and a missing or non-string
`X-Hub-Signature-256` header also yields 401. -/
theorem webhook_signature_verification (hmacHex : Str → Str → Str)
    (secret : Str) :
    (∀ payload signature,
      verifySignature hmacHex payload signature secret = true ↔
        signature = str "sha256=" ++ hmacHex secret payload) ∧
    (∀ rawBody sig,
      signatureMiddleware hmacHex secret ⟨some (.hstr sig), some rawBody⟩ =
        (if sig = str "sha256=" ++ hmacHex secret rawBody then .next
         else .respond 401)) ∧
    (∀ b, signatureMiddleware hmacHex secret ⟨none, b⟩ = .respond 401) ∧
    (∀ l b, signatureMiddleware hmacHex secret ⟨some (.harr l), b⟩ =
      .respond 401) := by
  refine ⟨fun payload signature => ?_, fun rawBody sig => ?_,
    fun b => rfl, fun l b => rfl⟩
  · rw [verifySignature_eq_beq]
    exact beq_iff_eq
  · show (if verifySignature hmacHex rawBody sig secret then MwOutcome.next
      else .respond 401) = _
    rw [verifySignature_eq_beq]
    by_cases hs : sig = str "sha256=" ++ hmacHex secret rawBody
    · simp [hs]
    · simp [hs]

/-! ## Claim C2: aggregator scores the full filtered set -/

/-- Claim C2: `aggregateIssues` computes `riskScore` as
`calculateRiskScore` of the full deduplicated, confidence-filtered set
(its `allIssues` field); `maxInlineComments` only selects the top of the
priority sort as `inlineComments` and never affects `riskScore`. -/
theorem aggregateIssues_riskScore_full_set (issues : List Issue)
    (cfg : AggConfig) :
    (aggregateIssues issues cfg).riskScore =
        calculateRiskScore ((aggregateIssues issues cfg).allIssues) ∧
    (aggregateIssues issues cfg).allIssues =
        (deduplicateIssues issues).filter
          (fun issue => decide (cfg.confidenceThreshold ≤ issue.confidence)) ∧
    (aggregateIssues issues cfg).inlineComments =
        (sortIssuesByPriority ((aggregateIssues issues cfg).allIssues)).take
          cfg.maxInlineComments ∧
    (∀ m, (aggregateIssues issues
        { confidenceThreshold := cfg.confidenceThreshold,
          maxInlineComments := m }).riskScore =
      (aggregateIssues issues cfg).riskScore) :=
  ⟨rfl, rfl, rfl, fun _ => rfl⟩

/-! ## Claim C3: the diff parser never fails -/

/-- Unfolding `splitOnChar` over a cons cell. -/
theorem splitOnChar_cons (c a : Char) (s : Str) :
    splitOnChar c (a :: s) =
      match splitOnChar c s with
      | [] => [[a]]
      | h :: t => if a = c then [] :: h :: t else (a :: h) :: t := rfl

/-- `splitOnChar` always yields at least one fragment. -/
theorem splitOnChar_ne_nil (c : Char) (s : Str) : splitOnChar c s ≠ [] := by
  induction s with
  | nil => simp [splitOnChar]
  | cons a t ih =>
    rw [splitOnChar_cons]
    cases h : splitOnChar c t with
    | nil => simp
    | cons hd tl => split_ifs <;> simp

/-- Splitting a string whose first line contains no newline. -/
theorem splitOnChar_append_newline (l rest : Str) (h : '\n' ∉ l) :
    splitOnChar '\n' (l ++ '\n' :: rest) = l :: splitOnChar '\n' rest := by
  induction l with
  | nil =>
    rw [List.nil_append, splitOnChar_cons]
    cases hsp : splitOnChar '\n' rest with
    | nil => exact absurd hsp (splitOnChar_ne_nil _ _)
    | cons hd tl => simp
  | cons a t ih =>
    have ha : a ≠ '\n' := fun he => h (by simp [he])
    have ht : '\n' ∉ t := fun he => h (by simp [he])
    rw [List.cons_append, splitOnChar_cons, ih ht]
    simp [ha]

/-- While no file header has been seen, any non-header line leaves the
parser state untouched. -/
theorem parseDiffLine_init_skip (l : Str) (hhdr : matchDiffHeader l = none) :
    parseDiffLine initParseState l = initParseState := by
  unfold parseDiffLine
  rw [hhdr]
  rfl

/-- Claim C3 (amended): `parseDiff` never fails — a hunk header occurring
before any file header is tolerated and skipped exactly like every other
malformed fragment, and a `ParsedDiff` is always returned. Formally,
prepending any newline-free line that is not a `diff --git` header leaves
the parse result unchanged. -/
theorem parseDiff_tolerates_orphan_fragments (l rest : Str)
    (hnl : '\n' ∉ l) (hhdr : matchDiffHeader l = none) :
    parseDiff (l ++ '\n' :: rest) = parseDiff rest := by
  simp only [parseDiff, splitOnChar_append_newline l rest hnl, List.foldl_cons,
    parseDiffLine_init_skip l hhdr]

/-- Witness for the amended C3: a hunk header line prepended to a
one-line fragment is skipped. -/
theorem parseDiff_tolerates_orphan_fragments_witness :
    ('\n' ∉ str "@@ -1,2 +3,4 @@") ∧
      matchDiffHeader (str "@@ -1,2 +3,4 @@") = none ∧
      parseDiff (str "@@ -1,2 +3,4 @@" ++ '\n' :: str "+x") =
        parseDiff (str "+x") :=
  ⟨by decide, by decide,
    parseDiff_tolerates_orphan_fragments _ _ (by decide) (by decide)⟩

set_option maxRecDepth 100000 in
/-- Counterexample to C3 as stated: on an input whose first line is a
hunk header with no preceding file header, `parseDiff` does not fail with
`MalformedDiff` (no such failure exists in the code) — it returns an
empty `ParsedDiff` with the fragment skipped. -/
theorem parseDiff_orphan_hunk_returns_empty :
    parseDiff (str "@@ -1,2 +3,4 @@\n+x") =
      { files := [], totalLinesAdded := 0, totalLinesRemoved := 0,
        totalFilesChanged := 0 } := by decide


/-! ## Claim C8: deduplication idempotence -/

theorem dedupInsert_of_not_mem (m : List (Str × Issue)) (i : Issue)
    (h : createDedupeKey i ∉ m.map Prod.fst) :
    dedupInsert m i = m ++ [(createDedupeKey i, i)] := by
  induction m with
  | nil => rfl
  | cons p t ih =>
    obtain ⟨k, e⟩ := p
    have hk : createDedupeKey i ≠ k := by
      intro he
      exact h (by rw [List.map_cons]; exact he ▸ List.mem_cons_self _ _)
    have ht : createDedupeKey i ∉ t.map Prod.fst := by
      intro he
      exact h (by rw [List.map_cons]; exact List.mem_cons_of_mem _ he)
    rw [dedupInsert, if_neg hk, ih ht, List.cons_append]

theorem dedupInsert_keys (m : List (Str × Issue)) (i : Issue) :
    (dedupInsert m i).map Prod.fst =
      (if createDedupeKey i ∈ m.map Prod.fst then m.map Prod.fst
       else m.map Prod.fst ++ [createDedupeKey i]) := by
  induction m with
  | nil => rfl
  | cons p t ih =>
    obtain ⟨k, e⟩ := p
    by_cases hk : createDedupeKey i = k
    · rw [dedupInsert, if_pos hk]
      have hmem : createDedupeKey i ∈ (List.map Prod.fst ((k, e) :: t)) := by
        rw [List.map_cons]; exact hk ▸ List.mem_cons_self _ _
      rw [if_pos hmem]
      by_cases hr : shouldReplace e i
      · rw [if_pos hr]; rfl
      · rw [if_neg hr]
    · rw [dedupInsert, if_neg hk, List.map_cons, ih, List.map_cons]
      by_cases hmem : createDedupeKey i ∈ t.map Prod.fst
      · rw [if_pos hmem, if_pos (List.mem_cons_of_mem _ hmem)]
      · rw [if_neg hmem, if_neg ?_, List.cons_append]
        intro hc
        rcases List.mem_cons.mp hc with hc | hc
        · exact hk hc
        · exact hmem hc

theorem dedupInsert_consistent (m : List (Str × Issue)) (i : Issue)
    (h : ∀ p ∈ m, p.1 = createDedupeKey p.2) :
    ∀ p ∈ dedupInsert m i, p.1 = createDedupeKey p.2 := by
  induction m with
  | nil =>
    intro p hp
    rw [show dedupInsert [] i = [(createDedupeKey i, i)] from rfl,
      List.mem_singleton] at hp
    subst hp
    rfl
  | cons q t ih =>
    obtain ⟨k, e⟩ := q
    intro p hp
    by_cases hk : createDedupeKey i = k
    · rw [dedupInsert, if_pos hk] at hp
      rcases List.mem_cons.mp hp with rfl | hp
      · by_cases hr : shouldReplace e i
        · rw [if_pos hr]; exact hk.symm
        · rw [if_neg hr]; exact h (k, e) (List.mem_cons_self _ _)
      · exact h p (List.mem_cons_of_mem _ hp)
    · rw [dedupInsert, if_neg hk] at hp
      rcases List.mem_cons.mp hp with rfl | hp
      · exact h (k, e) (List.mem_cons_self _ _)
      · exact ih (fun q hq => h q (List.mem_cons_of_mem _ hq)) p hp

theorem dedupInsert_nodup (m : List (Str × Issue)) (i : Issue)
    (h : (m.map Prod.fst).Nodup) : ((dedupInsert m i).map Prod.fst).Nodup := by
  rw [dedupInsert_keys]
  by_cases hmem : createDedupeKey i ∈ m.map Prod.fst
  · rw [if_pos hmem]; exact h
  · rw [if_neg hmem]
    refine List.Nodup.append h (List.nodup_singleton _) ?_
    intro a ha hb
    rw [List.mem_singleton] at hb
    subst hb
    exact hmem ha

theorem foldl_dedupInsert_of_fresh (l : List Issue) :
    ∀ m, (∀ i ∈ l, createDedupeKey i ∉ m.map Prod.fst) →
    (l.map createDedupeKey).Nodup →
    l.foldl dedupInsert m = m ++ l.map (fun i => (createDedupeKey i, i)) := by
  induction l with
  | nil => intro m _ _; simp
  | cons i t ih =>
    intro m hdisj hnd
    rw [List.foldl_cons, dedupInsert_of_not_mem m i (hdisj i (List.mem_cons_self _ _))]
    rw [ih (m ++ [(createDedupeKey i, i)]) ?_ ((List.nodup_cons.mp (by simpa using hnd)).2)]
    · simp
    · intro j hj
      rw [List.map_append, List.mem_append]
      rintro (hm | hk)
      · exact hdisj j (List.mem_cons_of_mem _ hj) hm
      · have hkey : createDedupeKey j = createDedupeKey i := by simpa using hk
        have hni : createDedupeKey i ∉ t.map createDedupeKey :=
          (List.nodup_cons.mp (by simpa using hnd)).1
        exact hni (hkey ▸ List.mem_map_of_mem createDedupeKey hj)

theorem foldl_dedupInsert_inv (l : List Issue) :
    (∀ p ∈ l.foldl dedupInsert [], p.1 = createDedupeKey p.2) ∧
      ((l.foldl dedupInsert []).map Prod.fst).Nodup := by
  suffices h : ∀ m, (∀ p ∈ m, p.1 = createDedupeKey p.2) → (m.map Prod.fst).Nodup →
      (∀ p ∈ l.foldl dedupInsert m, p.1 = createDedupeKey p.2) ∧
        ((l.foldl dedupInsert m).map Prod.fst).Nodup from
    h [] (fun p hp => absurd hp (List.not_mem_nil p)) List.nodup_nil
  induction l with
  | nil => intro m h1 h2; exact ⟨h1, h2⟩
  | cons i t ih =>
    intro m h1 h2
    exact ih (dedupInsert m i) (dedupInsert_consistent m i h1) (dedupInsert_nodup m i h2)

/-- Claim C8: deduplication is idempotent —
`deduplicate(deduplicate(X)) = deduplicate(X)`, where issues are keyed by
`filePath:lineStart-lineEnd:category:subtype[0:20]` and a key collision
keeps the higher-severity issue, breaking ties by higher confidence. -/
theorem deduplicateIssues_idempotent (X : List Issue) :
    deduplicateIssues (deduplicateIssues X) = deduplicateIssues X := by
  obtain ⟨hcons, hnd⟩ := foldl_dedupInsert_inv X
  have hkeys2 : (((X.foldl dedupInsert []).map (·.2)).map createDedupeKey).Nodup := by
    have heq : ((X.foldl dedupInsert []).map (·.2)).map createDedupeKey =
        (X.foldl dedupInsert []).map Prod.fst := by
      rw [List.map_map]
      exact (List.map_congr_left (fun p hp => (hcons p hp).symm))
    rw [heq]
    exact hnd
  show ((((X.foldl dedupInsert []).map (·.2)).foldl dedupInsert []).map (·.2)) =
    (X.foldl dedupInsert []).map (·.2)
  rw [foldl_dedupInsert_of_fresh ((X.foldl dedupInsert []).map (·.2)) []
    (fun i _ hmem => absurd hmem (by simp)) hkeys2]
  rw [List.nil_append, List.map_map, List.map_map]
  exact List.map_congr_left (fun p _ => rfl)

/-! ## Claim C9: OSV issue mapping -/

/-- Map with a running index starting at `n`. -/
def enumMapFrom {α β : Type} (f : ℕ → α → β) : ℕ → List α → List β
  | _, [] => []
  | n, x :: t => f n x :: enumMapFrom f (n + 1) t

/-- The push-with-counter loop pattern is an indexed map. -/
theorem foldl_push_enumMapFrom {α β : Type} (f : ℕ → β → α) (l : List β) :
    ∀ acc : List α,
      l.foldl (fun a b => a ++ [f a.length b]) acc =
        acc ++ enumMapFrom f acc.length l := by
  induction l with
  | nil => intro acc; simp [enumMapFrom]
  | cons b t ih =>
    intro acc
    rw [List.foldl_cons, ih (acc ++ [f acc.length b]), enumMapFrom]
    simp

/-- `enumMapFrom` over an append splits with a shifted index. -/
theorem enumMapFrom_append {α β : Type} (f : ℕ → α → β) (l1 l2 : List α) :
    ∀ n, enumMapFrom f n (l1 ++ l2) =
      enumMapFrom f n l1 ++ enumMapFrom f (n + l1.length) l2 := by
  induction l1 with
  | nil => intro n; simp [enumMapFrom]
  | cons x t ih =>
    intro n
    rw [List.cons_append, enumMapFrom, enumMapFrom, ih (n + 1), List.cons_append,
      List.length_cons]
    have h : n + 1 + t.length = n + (t.length + 1) := by omega
    rw [h]

/-- `enumMapFrom` over a mapped list composes. -/
theorem enumMapFrom_map {α β γ : Type} (f : ℕ → β → γ) (g : α → β) (l : List α) :
    ∀ n, enumMapFrom f n (l.map g) = enumMapFrom (fun k x => f k (g x)) n l := by
  induction l with
  | nil => intro n; rfl
  | cons x t ih => intro n; rw [List.map_cons, enumMapFrom, enumMapFrom, ih]

/-- Length of `enumMapFrom`. -/
theorem enumMapFrom_length {α β : Type} (f : ℕ → α → β) (l : List α) :
    ∀ n, (enumMapFrom f n l).length = l.length := by
  induction l with
  | nil => intro n; rfl
  | cons x t ih => intro n; rw [enumMapFrom, List.length_cons, List.length_cons, ih]

/-- Membership in `enumMapFrom` comes from some indexed element. -/
theorem enumMapFrom_mem {α β : Type} (f : ℕ → α → β) (l : List α) :
    ∀ n b, b ∈ enumMapFrom f n l → ∃ k x, x ∈ l ∧ b = f k x := by
  induction l with
  | nil => intro n b h; exact absurd h (List.not_mem_nil b)
  | cons x t ih =>
    intro n b h
    rw [enumMapFrom] at h
    rcases List.mem_cons.mp h with h | h
    · exact ⟨n, x, List.mem_cons_self _ _, h⟩
    · obtain ⟨k, y, hy, hb⟩ := ih (n + 1) b h
      exact ⟨k, y, List.mem_cons_of_mem _ hy, hb⟩

/-- Claim C9 (amended): with scanning enabled, `scanDependencies` produces
exactly one issue per vulnerability returned for each of the first 50
parsed dependencies, in order, each issue having category `dependency`,
confidence 0.95, `line_start = line_end = 1`, subtype `cve`, source tool
`osv`, evidence the first 200 characters of the vulnerability details,
message `**<VULN-ID>**: <summary> (<name>@<version>)`, and severity from
the first CVSS-like score (≥9 critical, ≥7 high, ≥4 medium, else low;
absent score → medium). -/
theorem scanDependencies_issue_mapping (deps : List PackageDependency)
    (vulnsOf : PackageDependency → List OsvVulnerability)
    (lockfilePath : Str) (ids : ℕ → Str) :
    scanDependencies true deps vulnsOf lockfilePath ids =
      enumMapFrom (fun k p => osvIssue (ids k) p.1 p.2 lockfilePath) 0
        ((deps.take 50).flatMap (fun d => (vulnsOf d).map (fun v => (d, v)))) ∧
    (∀ i ∈ scanDependencies true deps vulnsOf lockfilePath ids,
      i.category = .dependency ∧ i.confidence = 95/100 ∧ i.line_start = 1 ∧
        i.line_end = 1 ∧ i.subtype = str "cve" ∧
        i.source_tool = some (str "osv")) := by
  have hmain : scanDependencies true deps vulnsOf lockfilePath ids =
      enumMapFrom (fun k p => osvIssue (ids k) p.1 p.2 lockfilePath) 0
        ((deps.take 50).flatMap (fun d => (vulnsOf d).map (fun v => (d, v)))) := by
    show (deps.take 50).foldl _ [] = _
    have hgen : ∀ (ds : List PackageDependency) (acc : List Issue),
        ds.foldl
          (fun acc dep =>
            (vulnsOf dep).foldl
              (fun acc2 vuln =>
                acc2 ++ [osvIssue (ids acc2.length) dep vuln lockfilePath])
              acc)
          acc =
        acc ++ enumMapFrom (fun k p => osvIssue (ids k) p.1 p.2 lockfilePath)
          acc.length (ds.flatMap (fun d => (vulnsOf d).map (fun v => (d, v)))) := by
      intro ds
      induction ds with
      | nil => intro acc; simp [enumMapFrom]
      | cons d t ih =>
        intro acc
        rw [List.foldl_cons,
          foldl_push_enumMapFrom (fun k v => osvIssue (ids k) d v lockfilePath)
            (vulnsOf d) acc,
          ih, List.flatMap_cons, enumMapFrom_append, enumMapFrom_map,
          List.append_assoc]
        congr 2
        · rw [List.length_append, enumMapFrom_length]
          congr 1
          rw [List.length_map]
    exact hgen (deps.take 50) []
  refine ⟨hmain, fun i hi => ?_⟩
  rw [hmain] at hi
  obtain ⟨k, p, _, hb⟩ := enumMapFrom_mem _ _ _ _ hi
  subst hb
  exact ⟨rfl, rfl, rfl, rfl, rfl, rfl⟩

/-- Counterexample to C9 as stated: the message produced for a concrete
vulnerability is `**GHSA-1**: bad (lodash@4.17.11)` — the vulnerability id
is wrapped in markdown bold, not the plain `<VULN-ID>: …` form. -/
theorem scanDependencies_message_not_plain :
    ((scanDependencies true
        [(⟨str "lodash", str "4.17.11", .npm⟩ : PackageDependency)]
        (fun _ => [(⟨str "GHSA-1", str "bad", str "", none⟩ : OsvVulnerability)])
        (str "package.json") (fun _ => [])).map (·.message)) =
      [str "**GHSA-1**: bad (lodash@4.17.11)"] ∧
    str "**GHSA-1**: bad (lodash@4.17.11)" ≠ str "GHSA-1: bad (lodash@4.17.11)" := by
  constructor
  · decide
  · decide

/-! ## Claim C5: chunk partition invariant -/

/-- Files of flushed chunks followed by the pending batch. -/
def chunkFilesAcc (st : ChunkState) : List DiffFile :=
  ((st.chunks.map (·.files)).flatten) ++ st.currentFiles

/-- Indices of flushed chunks are consecutive from zero. -/
def chunkIdxAcc (st : ChunkState) : Prop :=
  st.chunks.map (·.index) = List.range st.chunks.length

/-- `createChunk` moves the batch into the chunk list without losing or
reordering files. -/
theorem createChunk_files (st : ChunkState) :
    chunkFilesAcc (createChunk st) = chunkFilesAcc st := by
  unfold createChunk chunkFilesAcc
  by_cases h : st.currentFiles = []
  · rw [if_pos h]
  · rw [if_neg h]
    simp

/-- `createChunk` always leaves an empty batch. -/
theorem createChunk_batch_empty (st : ChunkState) :
    (createChunk st).currentFiles = [] := by
  unfold createChunk
  by_cases h : st.currentFiles = []
  · rw [if_pos h]; exact h
  · rw [if_neg h]

/-- `createChunk` numbers a flushed chunk with the next index. -/
theorem createChunk_idx (st : ChunkState) (h : chunkIdxAcc st) :
    chunkIdxAcc (createChunk st) := by
  unfold createChunk chunkIdxAcc at *
  by_cases hc : st.currentFiles = []
  · rw [if_pos hc]; exact h
  · rw [if_neg hc]
    simp only [List.map_append, List.length_append]
    rw [h]
    simp [List.range_succ]

/-- Appending a file to the batch does not change flushed chunks. -/
theorem chunkIdxAcc_push (st : ChunkState) (a : List DiffFile) (b : List Str)
    (c : ℕ) :
    chunkIdxAcc
        { st with currentFiles := a, currentContent := b, currentTokens := c } ↔
      chunkIdxAcc st := Iff.rfl

/-- Appending a file to the batch appends it to the accumulated files. -/
theorem chunkFilesAcc_push (st : ChunkState) (f : DiffFile) (b : List Str)
    (c : ℕ) :
    chunkFilesAcc
        { st with currentFiles := st.currentFiles ++ [f], currentContent := b,
                  currentTokens := c } =
      chunkFilesAcc st ++ [f] := by
  unfold chunkFilesAcc
  simp [List.append_assoc]

/-- One chunker step appends exactly the processed file. -/
theorem chunkStep_files (cfg : ChunkConfig) (st : ChunkState) (f : DiffFile) :
    chunkFilesAcc (chunkStep cfg st f) = chunkFilesAcc st ++ [f] := by
  simp only [chunkStep]
  split_ifs <;> rw [chunkFilesAcc_push] <;>
    simp only [createChunk_files]

/-- One chunker step preserves consecutive chunk indices. -/
theorem chunkStep_idx (cfg : ChunkConfig) (st : ChunkState) (f : DiffFile)
    (h : chunkIdxAcc st) : chunkIdxAcc (chunkStep cfg st f) := by
  simp only [chunkStep]
  split_ifs <;> rw [chunkIdxAcc_push] <;>
    first
      | exact createChunk_idx _ (createChunk_idx _ h)
      | exact createChunk_idx _ h
      | exact h

/-- Folding the chunker over files appends them all in order. -/
theorem foldl_chunkStep_files (cfg : ChunkConfig) (l : List DiffFile) :
    ∀ st, chunkFilesAcc (l.foldl (chunkStep cfg) st) = chunkFilesAcc st ++ l := by
  induction l with
  | nil => intro st; simp
  | cons f t ih =>
    intro st
    rw [List.foldl_cons, ih, chunkStep_files, List.append_assoc, List.cons_append,
      List.nil_append]

/-- Folding the chunker preserves consecutive chunk indices. -/
theorem foldl_chunkStep_idx (cfg : ChunkConfig) (l : List DiffFile) :
    ∀ st, chunkIdxAcc st → chunkIdxAcc (l.foldl (chunkStep cfg) st) := by
  induction l with
  | nil => intro st h; exact h
  | cons f t ih =>
    intro st h
    rw [List.foldl_cons]
    exact ih _ (chunkStep_idx cfg st f h)

/-- Claim C5: the chunks of `chunkDiff` partition `diff.files` exactly —
concatenating the `files` arrays in chunk-index order yields `diff.files`
in the original input order (every input file appears in exactly one
chunk and no chunk contains a file not in the input), and the chunk list
is indexed consecutively from zero. -/
theorem chunkDiff_partition (diff : ParsedDiff) (cfg : ChunkConfig) :
    ((chunkDiff diff cfg).map (·.files)).flatten = diff.files ∧
    (chunkDiff diff cfg).map (·.index) =
      List.range (chunkDiff diff cfg).length := by
  by_cases h : diff.files = []
  · rw [chunkDiff, if_pos h, h]
    exact ⟨rfl, rfl⟩
  · rw [chunkDiff, if_neg h]
    have hfiles : chunkFilesAcc (createChunk
        (diff.files.foldl (chunkStep cfg) ⟨[], [], [], 0⟩)) = diff.files := by
      rw [createChunk_files, foldl_chunkStep_files]
      show chunkFilesAcc ⟨[], [], [], 0⟩ ++ diff.files = diff.files
      rw [show chunkFilesAcc ⟨[], [], [], 0⟩ = [] from rfl, List.nil_append]
    have hempty := createChunk_batch_empty
      (diff.files.foldl (chunkStep cfg) ⟨[], [], [], 0⟩)
    have hidx : chunkIdxAcc (createChunk
        (diff.files.foldl (chunkStep cfg) ⟨[], [], [], 0⟩)) :=
      createChunk_idx _ (foldl_chunkStep_idx cfg diff.files ⟨[], [], [], 0⟩ rfl)
    unfold chunkFilesAcc at hfiles
    rw [hempty, List.append_nil] at hfiles
    unfold chunkIdxAcc at hidx
    constructor
    · rw [List.map_map]
      exact hfiles
    · rw [List.map_map, List.length_map]
      exact hidx

/-! ## Claim C4: chunk token budget -/

/-- Estimated tokens of one file's formatted content. -/
def fileTokensOf (f : DiffFile) : ℕ := estimateTokens (formatDiffFileForLLM f)

/-- Sum of per-file token estimates (the chunker's running
`currentTokens`). -/
def sumFileTokens (fs : List DiffFile) : ℕ := (fs.map fileTokensOf).sum

/-- A batch is within budget, or is a single oversized file. -/
def BatchOk (cfg : ChunkConfig) (fs : List DiffFile) : Prop :=
  sumFileTokens fs ≤ cfg.maxTokens ∨
    ∃ f, fs = [f] ∧ cfg.maxTokens < fileTokensOf f

/-- The per-chunk facts maintained by the chunker. -/
def ChunkOk (cfg : ChunkConfig) (c : DiffChunk) : Prop :=
  c.content = joinSep (str "\n\n") (c.files.map formatDiffFileForLLM) ∧
    c.estimatedTokens = estimateTokens c.content ∧ BatchOk cfg c.files

/-- The chunker loop invariant. -/
def ChunkInv (cfg : ChunkConfig) (st : ChunkState) : Prop :=
  st.currentTokens = sumFileTokens st.currentFiles ∧
    st.currentContent = st.currentFiles.map formatDiffFileForLLM ∧
    BatchOk cfg st.currentFiles ∧
    ∀ c ∈ st.chunks, ChunkOk cfg c

/-- Flushing preserves the invariant. -/
theorem createChunk_inv (cfg : ChunkConfig) (st : ChunkState)
    (h : ChunkInv cfg st) : ChunkInv cfg (createChunk st) := by
  obtain ⟨h1, h2, h3, h4⟩ := h
  unfold createChunk
  by_cases hc : st.currentFiles = []
  · rw [if_pos hc]; exact ⟨h1, h2, h3, h4⟩
  · rw [if_neg hc]
    refine ⟨rfl, rfl, Or.inl (by simp [sumFileTokens]), ?_⟩
    intro c hc2
    rcases List.mem_append.mp hc2 with hmem | hmem
    · exact h4 c hmem
    · rw [List.mem_singleton] at hmem
      subst hmem
      exact ⟨by rw [h2], rfl, h3⟩

/-- Pushing a file onto an empty or still-fitting batch preserves the
invariant. -/
theorem push_inv (cfg : ChunkConfig) (st : ChunkState) (f : DiffFile)
    (h : ChunkInv cfg st)
    (hfit : st.currentFiles = [] ∨
      st.currentTokens + fileTokensOf f ≤ cfg.maxTokens) :
    ChunkInv cfg
      { st with currentFiles := st.currentFiles ++ [f],
                currentContent := st.currentContent ++ [formatDiffFileForLLM f],
                currentTokens := st.currentTokens + fileTokensOf f } := by
  obtain ⟨h1, h2, h3, h4⟩ := h
  refine ⟨?_, ?_, ?_, h4⟩
  · rw [h1]
    unfold sumFileTokens
    rw [List.map_append, List.sum_append]
    rfl
  · rw [h2, List.map_append]
    rfl
  · rcases hfit with hemp | hle
    · rw [hemp]
      by_cases hbig : cfg.maxTokens < fileTokensOf f
      · exact Or.inr ⟨f, rfl, hbig⟩
      · refine Or.inl ?_
        unfold sumFileTokens
        simp only [List.nil_append, List.map_cons, List.map_nil, List.sum_cons,
          List.sum_nil]
        omega
    · refine Or.inl ?_
      unfold sumFileTokens
      rw [List.map_append, List.sum_append]
      unfold sumFileTokens at h1
      simp only [List.map_cons, List.map_nil, List.sum_cons, List.sum_nil]
      omega

/-- One chunker step preserves the invariant. -/
theorem chunkStep_inv (cfg : ChunkConfig) (st : ChunkState) (f : DiffFile)
    (h : ChunkInv cfg st) : ChunkInv cfg (chunkStep cfg st f) := by
  simp only [chunkStep]
  split_ifs with h1 h2 h2
  · exact push_inv cfg _ f (createChunk_inv cfg _ (createChunk_inv cfg st h))
      (Or.inl (createChunk_batch_empty _))
  · exact push_inv cfg _ f (createChunk_inv cfg st h)
      (Or.inl (createChunk_batch_empty _))
  · exact push_inv cfg _ f (createChunk_inv cfg st h)
      (Or.inl (createChunk_batch_empty _))
  · refine push_inv cfg st f ⟨h.1, h.2.1, h.2.2.1, h.2.2.2⟩ (Or.inr ?_)
    have hft : fileTokensOf f = estimateTokens (formatDiffFileForLLM f) := rfl
    rw [hft]
    omega

/-- Folding the chunker preserves the invariant. -/
theorem foldl_chunkStep_inv (cfg : ChunkConfig) (l : List DiffFile) :
    ∀ st, ChunkInv cfg st → ChunkInv cfg (l.foldl (chunkStep cfg) st) := by
  induction l with
  | nil => intro st h; exact h
  | cons f t ih =>
    intro st h
    rw [List.foldl_cons]
    exact ih _ (chunkStep_inv cfg st f h)

/-- `joinSep` on a singleton. -/
theorem joinSep_singleton (sep x : Str) : joinSep sep [x] = x := by
  simp [joinSep, List.intercalate, List.intersperse]

/-- `joinSep` peels off the first of at least two pieces. -/
theorem joinSep_cons_cons (sep x y : Str) (t : List Str) :
    joinSep sep (x :: y :: t) = x ++ sep ++ joinSep sep (y :: t) := by
  simp [joinSep, List.intercalate, List.intersperse, List.append_assoc]

/-- Length of `joinSep` with the two-character `"\n\n"` separator. -/
theorem length_joinSep_nn (pieces : List Str) :
    (joinSep (str "\n\n") pieces).length =
      (pieces.map List.length).sum + 2 * (pieces.length - 1) := by
  induction pieces with
  | nil => rfl
  | cons x t ih =>
    cases t with
    | nil => simp [joinSep_singleton]
    | cons y u =>
      rw [joinSep_cons_cons, List.length_append, List.length_append, ih]
      simp only [List.map_cons, List.sum_cons, List.length_cons]
      have hsep : (str "\n\n").length = 2 := rfl
      omega

/-- Summed per-piece token estimates dominate the whole-string estimate. -/
theorem sum_estimateTokens_ge (ls : List ℕ) :
    (ls.sum + 3) / 4 ≤ (ls.map (fun a => (a + 3) / 4)).sum := by
  induction ls with
  | nil => simp
  | cons a t ih =>
    simp only [List.sum_cons, List.map_cons]
    omega

/-- The chunk-level token estimate exceeds the per-file sum only by the
`"\n\n"` separators: at most `⌈(k−1)/2⌉ = k/2` extra tokens for `k`
files. -/
theorem estimateTokens_joinSep_le (pieces : List Str) :
    estimateTokens (joinSep (str "\n\n") pieces) ≤
      (pieces.map estimateTokens).sum + pieces.length / 2 := by
  have hlen := length_joinSep_nn pieces
  have hsum := sum_estimateTokens_ge (pieces.map List.length)
  rw [List.map_map] at hsum
  have hmapeq : (pieces.map ((fun a => (a + 3) / 4) ∘ List.length)) =
      pieces.map estimateTokens := List.map_congr_left (fun p _ => rfl)
  rw [hmapeq] at hsum
  rw [show estimateTokens (joinSep (str "\n\n") pieces) =
    ((joinSep (str "\n\n") pieces).length + 3) / 4 from rfl, hlen]
  have step1 : ((pieces.map List.length).sum + 2 * (pieces.length - 1) + 3) / 4 ≤
      ((pieces.map List.length).sum + 3) / 4 + pieces.length / 2 := by omega
  omega

/-- Claim C4 (amended): every chunk produced by `chunkDiff` satisfies the
token budget up to the `"\n\n"` separator slack — the sum of its per-file
token estimates is at most `maxTokens` and its `estimatedTokens` is at
most `maxTokens + ⌊files/2⌋` — unless the chunk is a single file whose
formatted content alone exceeds the budget, in which case
`estimatedTokens` equals that file's own estimate. -/
theorem chunkDiff_token_budget (diff : ParsedDiff) (cfg : ChunkConfig)
    (c : DiffChunk) (hc : c ∈ chunkDiff diff cfg) :
    (sumFileTokens c.files ≤ cfg.maxTokens ∧
      c.estimatedTokens ≤ cfg.maxTokens + c.files.length / 2) ∨
    (∃ f, c.files = [f] ∧ cfg.maxTokens < fileTokensOf f ∧
      c.estimatedTokens = fileTokensOf f) := by
  have hok : ChunkOk cfg c := by
    rw [chunkDiff] at hc
    by_cases h : diff.files = []
    · rw [if_pos h] at hc
      exact absurd hc (List.not_mem_nil c)
    · rw [if_neg h] at hc
      have hinv : ChunkInv cfg (createChunk
          (diff.files.foldl (chunkStep cfg) ⟨[], [], [], 0⟩)) :=
        createChunk_inv cfg _ (foldl_chunkStep_inv cfg diff.files _
          ⟨rfl, rfl, Or.inl (by simp [sumFileTokens]), fun c hc => absurd hc
            (List.not_mem_nil c)⟩)
      obtain ⟨c0, hc0, rfl⟩ := List.mem_map.mp hc
      obtain ⟨g1, g2, g3⟩ := hinv.2.2.2 c0 hc0
      exact ⟨g1, g2, g3⟩
  obtain ⟨hcontent, hest, hbatch⟩ := hok
  rcases hbatch with hle | ⟨f, hf, hbig⟩
  · refine Or.inl ⟨hle, ?_⟩
    rw [hest, hcontent]
    calc estimateTokens (joinSep (str "\n\n") (c.files.map formatDiffFileForLLM))
        ≤ ((c.files.map formatDiffFileForLLM).map estimateTokens).sum +
            (c.files.map formatDiffFileForLLM).length / 2 :=
          estimateTokens_joinSep_le _
      _ ≤ cfg.maxTokens + c.files.length / 2 := by
          rw [List.map_map, List.length_map]
          have : (c.files.map (estimateTokens ∘ formatDiffFileForLLM)).sum =
              sumFileTokens c.files := rfl
          omega
  · refine Or.inr ⟨f, hf, hbig, ?_⟩
    rw [hest, hcontent, hf]
    rw [show ([f].map formatDiffFileForLLM) = [formatDiffFileForLLM f] from rfl,
      joinSep_singleton]
    rfl

/-- A minimal two-file diff exhibiting the separator slack. -/
def exFileAA : DiffFile :=
  { oldPath := some (str "aa"), newPath := some (str "aa"), type := .modify,
    isBinary := false, hunks := [], linesAdded := 0, linesRemoved := 0 }

/-- Second file of the C4 counterexample diff. -/
def exFileBB : DiffFile :=
  { oldPath := some (str "bb"), newPath := some (str "bb"), type := .modify,
    isBinary := false, hunks := [], linesAdded := 0, linesRemoved := 0 }

/-- The C4 counterexample diff. -/
def exDiffC4 : ParsedDiff :=
  { files := [exFileAA, exFileBB], totalLinesAdded := 0, totalLinesRemoved := 0,
    totalFilesChanged := 2 }

/-- The C4 counterexample chunk configuration (`maxTokens = 22`). -/
def exCfgC4 : ChunkConfig :=
  { maxTokens := 22, overlapTokens := 200, maxFilesPerChunk := 5,
    keepFilesTogether := true }

/-- The single chunk `chunkDiff` produces for `exDiffC4`. -/
def exChunkC4 : DiffChunk :=
  { index := 0, totalChunks := 1, files := [exFileAA, exFileBB],
    filePaths := [str "aa", str "bb"],
    content := str "## File: aa\nType: modify | +0 -0\n```diff\n```\n\n## File: bb\nType: modify | +0 -0\n```diff\n```",
    estimatedTokens := 23, languages := [] }

set_option maxRecDepth 100000 in
/-- Counterexample to C4 as stated: with `maxTokens = 22` and two files
whose formatted contents estimate to 11 tokens each (so both fit the
running budget `11 + 11 ≤ 22`), the produced chunk contains two files yet
has `estimatedTokens = 23 > 22`, because the `"\n\n"` join separator is
not counted by the running total — the chunk is not a single file whose
content alone exceeds the budget. -/
theorem chunkDiff_separator_overflow :
    ((chunkDiff exDiffC4 exCfgC4).map
        (fun c => (c.files.length, c.estimatedTokens))) = [(2, 23)] ∧
      exCfgC4.maxTokens = 22 ∧
      (exDiffC4.files.map fileTokensOf) = [11, 11] := by decide

set_option maxRecDepth 100000 in
/-- Witness for the amended C4 at the counterexample chunk. -/
theorem chunkDiff_token_budget_witness :
    (exChunkC4 ∈ chunkDiff exDiffC4 exCfgC4) ∧
      ((sumFileTokens exChunkC4.files ≤ exCfgC4.maxTokens ∧
          exChunkC4.estimatedTokens ≤
            exCfgC4.maxTokens + exChunkC4.files.length / 2) ∨
        (∃ f, exChunkC4.files = [f] ∧ exCfgC4.maxTokens < fileTokensOf f ∧
          exChunkC4.estimatedTokens = fileTokensOf f)) :=
  ⟨by decide, chunkDiff_token_budget exDiffC4 exCfgC4 exChunkC4 (by decide)⟩

/-! ## Claim C6: risk score monotonicity -/

/-- The fixed-weight contribution of one issue. -/
def issueContrib (i : Issue) : ℚ :=
  SEVERITY_WEIGHTS i.severity * i.confidence * CATEGORY_WEIGHTS i.category

/-- Inserting an issue into the grouping adds its contribution to the
summed category scores. -/
theorem insertGroup_catScore_sum (sevW : IssueSeverity → ℚ)
    (catW : IssueCategory → ℚ) (m : List (IssueCategory × List Issue))
    (i : Issue) :
    (((insertGroup m i).map (fun e => categoryScoreOf sevW catW e.1 e.2)).sum) =
      ((m.map (fun e => categoryScoreOf sevW catW e.1 e.2)).sum) +
        sevW i.severity * i.confidence * catW i.category := by
  induction m with
  | nil => simp [insertGroup, categoryScoreOf]
  | cons p t ih =>
    obtain ⟨c, g⟩ := p
    by_cases hc : i.category = c
    · rw [insertGroup, if_pos hc]
      simp only [List.map_cons, List.sum_cons]
      unfold categoryScoreOf
      rw [List.map_append, List.sum_append, hc]
      simp
      ring
    · rw [insertGroup, if_neg hc]
      simp only [List.map_cons, List.sum_cons, ih]
      ring

/-- Folding the grouping sums all contributions. -/
theorem foldl_insertGroup_catScore_sum (sevW : IssueSeverity → ℚ)
    (catW : IssueCategory → ℚ) (l : List Issue) :
    ∀ m, (((l.foldl insertGroup m).map
        (fun e => categoryScoreOf sevW catW e.1 e.2)).sum) =
      ((m.map (fun e => categoryScoreOf sevW catW e.1 e.2)).sum) +
        (l.map (fun i => sevW i.severity * i.confidence * catW i.category)).sum := by
  induction l with
  | nil => intro m; simp
  | cons i t ih =>
    intro m
    rw [List.foldl_cons, ih, insertGroup_catScore_sum]
    simp only [List.map_cons, List.sum_cons]
    ring

/-- The raw score of `calculateRiskScore` under the default configuration
is the sum of per-issue contributions. -/
theorem calculateRiskScore_rawScore (issues : List Issue) :
    (calculateRiskScore issues).rawScore = (issues.map issueContrib).sum := by
  show ((groupByCategory issues).map
      (fun e => categoryScoreOf _ _ e.1 e.2)).sum = _
  rw [groupByCategory, foldl_insertGroup_catScore_sum]
  simp only [List.map_nil, List.sum_nil, zero_add]
  rfl

/-- The score field of `calculateRiskScore`, spelled out. -/
theorem calculateRiskScore_score_eq (issues : List Issue) (cfg : ScoreConfig) :
    (calculateRiskScore issues cfg).score =
      min 100 ((jsRound (min 100 (min 100
        ((calculateRiskScore issues cfg).rawScore /
          (calculateRiskScore issues cfg).maxPossibleScore * 100) *
          (11/10))) : ℤ) : ℚ) := rfl

/-- The default normalization denominator is `20 × 15 × 4 = 1200`. -/
theorem calculateRiskScore_maxPossible (issues : List Issue) :
    (calculateRiskScore issues).maxPossibleScore = ((20 : ℕ) : ℚ) * 15 * 4 := rfl

/-- `Math.round` is monotone. -/
theorem jsRound_mono {x y : ℚ} (h : x ≤ y) : jsRound x ≤ jsRound y :=
  Int.floor_le_floor (by linarith)

/-- The final-score pipeline is monotone in the raw score. -/
theorem score_pipeline_mono {a b D : ℚ} (hD : 0 < D) (hab : a ≤ b) :
    min (100 : ℚ) ((jsRound (min 100 (min 100 (a / D * 100) * (11/10))) : ℤ) : ℚ) ≤
      min 100 ((jsRound (min 100 (min 100 (b / D * 100) * (11/10))) : ℤ) : ℚ) := by
  have h1 : a / D * 100 ≤ b / D * 100 := by
    have : a / D ≤ b / D := by gcongr
    nlinarith
  have h2 : min (100 : ℚ) (a / D * 100) * (11/10) ≤
      min 100 (b / D * 100) * (11/10) := by
    have := min_le_min (le_refl (100 : ℚ)) h1
    nlinarith
  have h3 := min_le_min (le_refl (100 : ℚ)) h2
  have h4 := jsRound_mono h3
  exact min_le_min (le_refl (100 : ℚ)) (by exact_mod_cast h4)

/-- `SEVERITY_WEIGHTS` values are nonnegative. -/
theorem SEVERITY_WEIGHTS_nonneg (s : IssueSeverity) : 0 ≤ SEVERITY_WEIGHTS s := by
  cases s <;> norm_num [SEVERITY_WEIGHTS]

/-- `CATEGORY_WEIGHTS` values are nonnegative. -/
theorem CATEGORY_WEIGHTS_nonneg (c : IssueCategory) : 0 ≤ CATEGORY_WEIGHTS c := by
  cases c <;> norm_num [CATEGORY_WEIGHTS]

/-- Claim C6: for every issue list whose confidences lie in `[0, 1]` and
every added issue with confidence in `[0, 1]`, appending the issue can
never decrease the final 0–100 risk score. -/
theorem calculateRiskScore_monotone (X : List Issue) (i : Issue)
    (hX : ∀ x ∈ X, 0 ≤ x.confidence ∧ x.confidence ≤ 1)
    (hi : 0 ≤ i.confidence ∧ i.confidence ≤ 1) :
    (calculateRiskScore X).score ≤ (calculateRiskScore (X ++ [i])).score := by
  have hraw : (calculateRiskScore (X ++ [i])).rawScore =
      (calculateRiskScore X).rawScore + issueContrib i := by
    rw [calculateRiskScore_rawScore, calculateRiskScore_rawScore,
      List.map_append, List.sum_append]
    simp
  have hpos : 0 ≤ issueContrib i :=
    mul_nonneg (mul_nonneg (SEVERITY_WEIGHTS_nonneg _) hi.1)
      (CATEGORY_WEIGHTS_nonneg _)
  have hab : (calculateRiskScore X).rawScore ≤
      (calculateRiskScore (X ++ [i])).rawScore := by
    rw [hraw]; linarith
  have hD : (0 : ℚ) < (calculateRiskScore X).maxPossibleScore := by
    rw [calculateRiskScore_maxPossible]; norm_num
  have hDeq : (calculateRiskScore (X ++ [i])).maxPossibleScore =
      (calculateRiskScore X).maxPossibleScore := rfl
  rw [calculateRiskScore_score_eq X DEFAULT_SCORE_CONFIG,
    calculateRiskScore_score_eq (X ++ [i]) DEFAULT_SCORE_CONFIG, hDeq]
  exact score_pipeline_mono hD hab

/-- The concrete issue used by the C6 witness. -/
def exIssueC6 : Issue :=
  { id := str "w", category := .security, subtype := str "s",
    severity := .critical, confidence := 1, file_path := str "f",
    line_start := 1, line_end := 1, message := str "m", evidence := str "" }

/-- Witness for C6: appending one critical security issue of confidence 1
to the empty list. -/
theorem calculateRiskScore_monotone_witness :
    (∀ x ∈ ([] : List Issue), 0 ≤ x.confidence ∧ x.confidence ≤ 1) ∧
      (0 ≤ exIssueC6.confidence ∧ exIssueC6.confidence ≤ 1) ∧
      (calculateRiskScore []).score ≤
        (calculateRiskScore ([] ++ [exIssueC6])).score :=
  ⟨fun x hx => absurd hx (List.not_mem_nil x), ⟨by norm_num [exIssueC6], le_refl 1⟩,
    calculateRiskScore_monotone [] exIssueC6
      (fun x hx => absurd hx (List.not_mem_nil x))
      ⟨by norm_num [exIssueC6], le_refl 1⟩⟩

/-! ## Claim C7: check gate condition -/

/-- Lookup of a category's group in the insertion-ordered map. -/
def lookupCat (c : IssueCategory) (m : List (IssueCategory × List Issue)) :
    Option (List Issue) :=
  (m.find? (fun e => e.1 == c)).map (·.2)

/-- One grouping step, seen through `lookupCat`. -/
theorem lookupCat_insertGroup (c : IssueCategory)
    (m : List (IssueCategory × List Issue)) (i : Issue) :
    lookupCat c (insertGroup m i) =
      if i.category = c then some ((lookupCat c m).getD [] ++ [i])
      else lookupCat c m := by
  induction m with
  | nil =>
    by_cases hc : i.category = c
    · rw [if_pos hc]
      show ((List.find? (fun e => e.1 == c) [(i.category, [i])]).map (·.2)) = _
      rw [List.find?_cons_of_pos _ (by simpa using hc)]
      simp [lookupCat]
    · rw [if_neg hc]
      show ((List.find? (fun e => e.1 == c) [(i.category, [i])]).map (·.2)) = _
      rw [List.find?_cons_of_neg _ (by simpa using hc)]
      rfl
  | cons p t ih =>
    obtain ⟨d, g⟩ := p
    by_cases hd : i.category = d
    · rw [insertGroup, if_pos hd]
      by_cases hc2 : d = c
      · have hic : i.category = c := hd.trans hc2
        rw [if_pos hic]
        unfold lookupCat
        rw [List.find?_cons_of_pos _ (by simpa using hc2),
          List.find?_cons_of_pos _ (by simpa using hc2)]
        simp
      · have hic : ¬ i.category = c := by rw [hd]; exact hc2
        rw [if_neg hic]
        unfold lookupCat
        rw [List.find?_cons_of_neg _ (by simpa using hc2),
          List.find?_cons_of_neg _ (by simpa using hc2)]
    · rw [insertGroup, if_neg hd]
      by_cases hc2 : d = c
      · have hic : ¬ i.category = c := fun h => hd (h.trans hc2.symm)
        rw [if_neg hic]
        unfold lookupCat
        rw [List.find?_cons_of_pos _ (by simpa using hc2),
          List.find?_cons_of_pos _ (by simpa using hc2)]
      · unfold lookupCat at ih ⊢
        rw [List.find?_cons_of_neg _ (by simpa using hc2),
          List.find?_cons_of_neg _ (by simpa using hc2)]
        exact ih

/-- Present groups accumulate exactly the matching issues. -/
theorem lookupCat_foldl_getD (c : IssueCategory) (l : List Issue) :
    ∀ m, (lookupCat c (l.foldl insertGroup m)).getD [] =
      (lookupCat c m).getD [] ++ l.filter (fun i => i.category == c) := by
  induction l with
  | nil => intro m; simp
  | cons i t ih =>
    intro m
    rw [List.foldl_cons, ih, lookupCat_insertGroup]
    by_cases hc : i.category = c
    · rw [if_pos hc, List.filter_cons_of_pos (by simpa using hc)]
      simp
    · rw [if_neg hc, List.filter_cons_of_neg (by simpa using hc)]

/-- A group exists iff some issue has the category. -/
theorem lookupCat_foldl_isSome (c : IssueCategory) (l : List Issue) :
    ∀ m, (lookupCat c (l.foldl insertGroup m)).isSome =
      ((lookupCat c m).isSome || l.any (fun i => i.category == c)) := by
  induction l with
  | nil => intro m; simp
  | cons i t ih =>
    intro m
    rw [List.foldl_cons, ih, lookupCat_insertGroup]
    by_cases hc : i.category = c
    · rw [if_pos hc]
      simp [hc]
    · rw [if_neg hc]
      have hb : (i.category == c) = false := by simpa using hc
      rw [List.any_cons, hb, Bool.false_or]

/-- Grouping keys after one insertion. -/
theorem insertGroup_keys (m : List (IssueCategory × List Issue)) (i : Issue) :
    (insertGroup m i).map Prod.fst =
      (if i.category ∈ m.map Prod.fst then m.map Prod.fst
       else m.map Prod.fst ++ [i.category]) := by
  induction m with
  | nil => simp [insertGroup]
  | cons p t ih =>
    obtain ⟨d, g⟩ := p
    by_cases hd : i.category = d
    · rw [insertGroup, if_pos hd, if_pos (by simp [hd])]
      rfl
    · rw [insertGroup, if_neg hd, List.map_cons, ih, List.map_cons]
      by_cases hmem : i.category ∈ t.map Prod.fst
      · rw [if_pos hmem, if_pos (by simp [hmem])]
      · rw [if_neg hmem, if_neg ?_, List.cons_append]
        intro hc
        rcases List.mem_cons.mp hc with hc | hc
        · exact hd hc
        · exact hmem hc

/-- Grouping keys are pairwise distinct. -/
theorem groupByCategory_keys_nodup (issues : List Issue) :
    ((groupByCategory issues).map Prod.fst).Nodup := by
  suffices h : ∀ m, (List.map Prod.fst m).Nodup →
      ((issues.foldl insertGroup m).map Prod.fst).Nodup from h [] List.nodup_nil
  induction issues with
  | nil => intro m hm; exact hm
  | cons i t ih =>
    intro m hm
    rw [List.foldl_cons]
    refine ih _ ?_
    rw [insertGroup_keys]
    by_cases hmem : i.category ∈ m.map Prod.fst
    · rw [if_pos hmem]; exact hm
    · rw [if_neg hmem]
      refine List.Nodup.append hm (List.nodup_singleton _) ?_
      intro a ha hb
      rw [List.mem_singleton] at hb
      subst hb
      exact hmem ha

/-- With distinct keys, membership determines the `find?` result. -/
theorem find?_of_mem_nodup_keys (m : List (IssueCategory × List Issue))
    (c : IssueCategory) (g : List Issue) (hmem : (c, g) ∈ m)
    (hnd : (m.map Prod.fst).Nodup) :
    m.find? (fun e => e.1 == c) = some (c, g) := by
  induction m with
  | nil => exact absurd hmem (List.not_mem_nil _)
  | cons p t ih =>
    obtain ⟨d, h⟩ := p
    rcases List.mem_cons.mp hmem with heq | hmem2
    · rw [← heq]
      exact List.find?_cons_of_pos _ (by simp)
    · have hdc : d ≠ c := by
        intro hdc
        have hc2 : c ∈ t.map Prod.fst := by
          simpa using List.mem_map_of_mem Prod.fst hmem2
        have hd2 : d ∉ t.map Prod.fst :=
          (List.nodup_cons.mp (by simpa using hnd)).1
        exact hd2 (hdc ▸ hc2)
      rw [List.find?_cons_of_neg _ (by simpa using hdc)]
      exact ih hmem2 (by simpa using hnd.of_cons)

/-- One step of the running-maximum severity. -/
theorem maxSev_step_critical (m s : IssueSeverity) :
    (if SEVERITY_WEIGHTS m < SEVERITY_WEIGHTS s then s else m) = .critical ↔
      (m = .critical ∨ s = .critical) := by
  cases m <;> cases s <;> norm_num [SEVERITY_WEIGHTS] <;> simp

/-- The tracked maximum severity is `critical` iff some issue in the
group is critical. -/
theorem maxSeverityOf_critical (g : List Issue) :
    maxSeverityOf g = .critical ↔ ∃ i ∈ g, i.severity = .critical := by
  have hgen : ∀ (l : List Issue) (m : IssueSeverity),
      (l.foldl (fun m i =>
        if SEVERITY_WEIGHTS m < SEVERITY_WEIGHTS i.severity then i.severity
        else m) m) = .critical ↔ (m = .critical ∨ ∃ i ∈ l, i.severity = .critical) := by
    intro l
    induction l with
    | nil => intro m; simp
    | cons i t ih =>
      intro m
      rw [List.foldl_cons, ih, maxSev_step_critical]
      constructor
      · rintro ((hm | hi) | ⟨j, hj, hcrit⟩)
        · exact Or.inl hm
        · exact Or.inr ⟨i, List.mem_cons_self _ _, hi⟩
        · exact Or.inr ⟨j, List.mem_cons_of_mem _ hj, hcrit⟩
      · rintro (hm | ⟨j, hj, hcrit⟩)
        · exact Or.inl (Or.inl hm)
        · rcases List.mem_cons.mp hj with rfl | hj2
          · exact Or.inl (Or.inr hcrit)
          · exact Or.inr ⟨j, hj2, hcrit⟩
  have := hgen g .low
  unfold maxSeverityOf
  rw [this]
  simp

/-- Stable descending insertion is a permutation of consing. -/
theorem insertDescBy_perm {α : Type} (key : α → ℚ) (x : α) (l : List α) :
    (insertDescBy key x l).Perm (x :: l) := by
  induction l with
  | nil => exact List.Perm.refl _
  | cons y ys ih =>
    rw [insertDescBy]
    by_cases h : key x < key y
    · rw [if_pos h]
      exact (ih.cons y).trans (List.Perm.swap x y ys)
    · rw [if_neg h]

/-- The stable sort is a permutation of its input. -/
theorem sortDescBy_perm {α : Type} (key : α → ℚ) (l : List α) :
    (sortDescBy key l).Perm l := by
  induction l with
  | nil => exact List.Perm.refl _
  | cons x t ih =>
    show (insertDescBy key x (sortDescBy key t)).Perm (x :: t)
    exact (insertDescBy_perm key x (sortDescBy key t)).trans (ih.cons x)

/-- The breakdown entry built from one category group. -/
def breakdownEntryOf (sevW : IssueSeverity → ℚ) (catW : IssueCategory → ℚ)
    (e : IssueCategory × List Issue) : CategoryBreakdown :=
  { category := e.1
    count := e.2.length
    max_severity := maxSeverityOf e.2
    score_contribution := (jsRound (categoryScoreOf sevW catW e.1 e.2 * 10) : ℚ) / 10 }

/-- The breakdown field of `calculateRiskScore`, spelled out. -/
theorem calculateRiskScore_breakdown (issues : List Issue) (cfg : ScoreConfig) :
    (calculateRiskScore issues cfg).breakdown =
      sortDescBy (fun b => b.score_contribution)
        ((groupByCategory issues).map (breakdownEntryOf
          (fun s => (cfg.severityWeights s).getD (SEVERITY_WEIGHTS s))
          (fun c => (cfg.categoryWeights c).getD (CATEGORY_WEIGHTS c)))) := rfl

/-- The security entry of the sorted breakdown is critical iff the issue
set contains a critical security issue. -/
theorem breakdown_find_security_critical (issues : List Issue)
    (cfg : ScoreConfig) :
    (match (calculateRiskScore issues cfg).breakdown.find?
        (fun b => b.category == .security) with
      | some b => b.max_severity == IssueSeverity.critical
      | none => false) = true ↔
      ∃ i ∈ issues, i.category = .security ∧ i.severity = .critical := by
  rw [calculateRiskScore_breakdown]
  set sevW := fun s => (cfg.severityWeights s).getD (SEVERITY_WEIGHTS s)
  set catW := fun c => (cfg.categoryWeights c).getD (CATEGORY_WEIGHTS c)
  set entries := (groupByCategory issues).map (breakdownEntryOf sevW catW)
    with hentries
  have hperm := sortDescBy_perm (fun b => b.score_contribution) entries
  have hex : (∃ i ∈ issues, i.category = .security ∧ i.severity = .critical) ↔
      ∃ i ∈ issues.filter (fun i => i.category == IssueCategory.security),
        i.severity = .critical := by
    constructor
    · rintro ⟨i, hi, hsec, hcrit⟩
      exact ⟨i, List.mem_filter.mpr ⟨hi, by simpa using hsec⟩, hcrit⟩
    · rintro ⟨i, hi, hcrit⟩
      obtain ⟨hi2, hsec⟩ := List.mem_filter.mp hi
      exact ⟨i, hi2, by simpa using hsec, hcrit⟩
  cases hfind : (sortDescBy (fun b => b.score_contribution) entries).find?
      (fun b => b.category == .security) with
  | none =>
    simp only [Bool.false_eq_true, false_iff]
    rintro ⟨i, hi, hsec, hcrit⟩
    have hsome : (lookupCat .security (groupByCategory issues)).isSome := by
      rw [groupByCategory, lookupCat_foldl_isSome]
      have : issues.any (fun j => j.category == IssueCategory.security) = true :=
        List.any_eq_true.mpr ⟨i, hi, by simpa using hsec⟩
      rw [this, Bool.or_true]
    obtain ⟨e, he⟩ := Option.isSome_iff_exists.mp
      (by simpa [lookupCat] using hsome : ((groupByCategory issues).find?
        (fun e => e.1 == IssueCategory.security)).isSome)
    have hmem := List.mem_of_find?_eq_some he
    have hP := List.find?_some he
    have hbmem : breakdownEntryOf sevW catW e ∈
        sortDescBy (fun b => b.score_contribution) entries :=
      hperm.mem_iff.mpr (List.mem_map_of_mem _ hmem)
    have := List.find?_eq_none.mp hfind _ hbmem
    apply this
    show (breakdownEntryOf sevW catW e).category == IssueCategory.security
    simpa [breakdownEntryOf] using hP
  | some b =>
    have hPb := List.find?_some hfind
    have hbmem : b ∈ entries :=
      hperm.mem_iff.mp (List.mem_of_find?_eq_some hfind)
    obtain ⟨e, hemem, hbe⟩ := List.mem_map.mp hbmem
    have hesec : e.1 = IssueCategory.security := by
      have : b.category = IssueCategory.security := by simpa using hPb
      rw [← hbe] at this
      simpa [breakdownEntryOf] using this
    have hfind2 : (groupByCategory issues).find?
        (fun x => x.1 == IssueCategory.security) = some (.security, e.2) := by
      have := find?_of_mem_nodup_keys (groupByCategory issues) .security e.2
        (by rw [← hesec]; exact hemem) (groupByCategory_keys_nodup issues)
      exact this
    have hfilter : e.2 = issues.filter
        (fun i => i.category == IssueCategory.security) := by
      have hl := lookupCat_foldl_getD IssueCategory.security issues []
      rw [← groupByCategory] at hl
      rw [lookupCat, hfind2] at hl
      simpa using hl
    have hmax : b.max_severity = maxSeverityOf e.2 := by
      rw [← hbe]; rfl
    rw [show (match some b with
        | some b => b.max_severity == IssueSeverity.critical
        | none => false) = (b.max_severity == IssueSeverity.critical) from rfl]
    rw [hex, hmax, ← hfilter]
    constructor
    · intro h
      exact (maxSeverityOf_critical e.2).mp (by simpa using h)
    · intro h
      simpa using (maxSeverityOf_critical e.2).mpr h

/-- Claim C7: `shouldFailCheck` on a computed risk-score result returns
true iff the final score reaches the threshold, or
`failOnCriticalSecurity` holds and the issue set contains a critical
security issue. -/
theorem shouldFailCheck_gate (issues : List Issue) (cfg : ScoreConfig)
    (threshold : ℚ) (focs : Bool) :
    shouldFailCheck (calculateRiskScore issues cfg) threshold focs = true ↔
      (threshold ≤ (calculateRiskScore issues cfg).score ∨
        (focs = true ∧
          ∃ i ∈ issues, i.category = .security ∧ i.severity = .critical)) := by
  unfold shouldFailCheck
  by_cases hsc : threshold ≤ (calculateRiskScore issues cfg).score
  · rw [if_pos hsc]
    simp [hsc]
  · rw [if_neg hsc]
    cases focs with
    | false => simp [hsc]
    | true =>
      rw [if_pos rfl]
      rw [breakdown_find_security_critical issues cfg]
      simp [hsc]
